import Mathlib

/-!
# Verification of the website-cloner orchestration core

Shallow embedding of the cloning orchestrator of the `Website-cloner`
repository.  The canonical streaming variant lives in `src/App.tsx`; the
earlier batch variant (single structured model response) lives in
`src/unnamed/part_001`.  Both share the virtual file tree
(`addFileToSystem` / `getFileSystemAsText`) and the session state driven by
React `useState` hooks.

Modelling conventions:
* JavaScript objects used as string-keyed maps become association lists
  (`List (String × FSNode)`) preserving insertion order, matching
  `Object.entries` iteration order; assignment `obj[k] = v` replaces the
  first binding of `k` in place or appends a new binding (`objSet`).
* `String.prototype.split('/')` is embedded at the character level
  (`jsSplitChars`), matching the JavaScript semantics exactly
  (`"a//b".split('/') = ["a","","b"]`, `"".split('/') = [""]`).
* A `Set<string>` in insertion order becomes a duplicate-free `List String`
  with `setAdd` (`Set.add` appends only when absent).
* React state updates inside one effect run are modelled by threading a
  `Session` record; reads of closure-captured state variables (which React
  keeps at their value from the render that created the effect) are
  modelled by passing the *stale* snapshot explicitly where the source
  reads such a variable after having queued an update for it.
* Network fetches, the generative-model backend and URL resolution
  (`new URL(u, base)`) are external effects; they enter the step functions
  as explicit oracle arguments (`FetchOutcome`, stream records, a
  `resolve` function returning `none` when the URL constructor throws).
* `AgentLogEntry.timestamp` (`new Date()`) is wall-clock time and is
  dropped from the embedding; log entries keep message and type.
* `Session.fetchLog` is a ghost field recording every URL for which a page
  fetch was initiated; the source performs the fetch at exactly the points
  where the embedding appends to it.  No source behaviour depends on it.
-/

namespace Cloner

/-- `CloningState` from `src/types.ts`. -/
inductive CloningState where
  | IDLE
  | CLONING
  | AWAITING_USER_INPUT
  | QUALITY_CHECK
  | FIXING
  | COMPLETED
  | ERROR
deriving DecidableEq, Repr

/-- `LogType` from `src/types.ts` (the NETWORK member is visualization-only). -/
inductive LogType where
  | INFO
  | WARN
  | ERROR
  | SUCCESS
  | SYSTEM
  | DEBUG
  | THOUGHT
  | NETWORK
deriving DecidableEq, Repr

/-- `AgentLogEntry` from `src/types.ts`, without the wall-clock timestamp. -/
structure AgentLogEntry where
  message : String
  type : LogType
deriving DecidableEq, Repr

/-- One entry of `cloningQueue`: `{ url: string; screenshot?: File }`.
The binary screenshot is abstracted to its presence. -/
structure Job where
  url : String
  hasScreenshot : Bool := false
deriving DecidableEq, Repr

/-- `FileSystemNode` from `src/types.ts`: a file with content, or a folder
whose `children` object is an insertion-ordered string-keyed map. -/
inductive FSNode where
  | file (content : String)
  | folder (children : List (String × FSNode))

/-- `FileSystem` from `src/types.ts`: `{ [key: string]: FileSystemNode }`. -/
abbrev FileSystem := List (String × FSNode)

/-- JavaScript property read `obj[k]`: first binding of `k`, if any. -/
def objGet (fs : FileSystem) (k : String) : Option FSNode :=
  match fs with
  | [] => none
  | (k', v) :: rest => if k' = k then some v else objGet rest k

/-- JavaScript property write `obj[k] = v`: replace the binding of `k` in
place (keeping its position) or append a fresh binding. -/
def objSet (fs : FileSystem) (k : String) (v : FSNode) : FileSystem :=
  match fs with
  | [] => [(k, v)]
  | (k', v') :: rest => if k' = k then (k', v) :: rest else (k', v') :: objSet rest k v

/-- Character-level embedding of `s.split(c)` for a one-character separator,
with the exact JavaScript semantics: the result is the list of (possibly
empty) maximal separator-free pieces, and splitting the empty string yields
`[[]]`. -/
def jsSplitChars (c : Char) : List Char → List (List Char)
  | [] => [[]]
  | x :: xs =>
    if x = c then [] :: jsSplitChars c xs
    else
      match jsSplitChars c xs with
      | [] => [[x]]
      | piece :: rest => (x :: piece) :: rest

/-- `path.split('/').filter(p => p)` from `addFileToSystem`: the non-empty
`'/'`-separated segments of a path. -/
def pathParts (path : String) : List String :=
  ((jsSplitChars '/' path.data).map (fun l => String.mk l)).filter (fun s => s ≠ "")

/-- The loop of `addFileToSystem` (`src/App.tsx` lines 70–81) after the path
has been split: walk/create folders along all but the last segment
(overwriting any non-folder collision with a fresh folder), then assign a
file node at the last segment.  An empty segment list models the JavaScript
evaluation `current[parts[parts.length - 1]] = …` with `parts` empty: the
index expression is `undefined`, and indexing an object with `undefined`
coerces to the literal property key `"undefined"`. -/
def insertParts : FileSystem → List String → String → FileSystem
  | fs, [], content => objSet fs "undefined" (FSNode.file content)
  | fs, [p], content => objSet fs p (FSNode.file content)
  | fs, p :: q :: rest, content =>
    let children : FileSystem :=
      match objGet fs p with
      | some (FSNode.folder ch) => ch
      | _ => []
    objSet fs p (FSNode.folder (insertParts children (q :: rest) content))

/-- `addFileToSystem(fs, path, content)` from `src/App.tsx` lines 70–81
(the batch variant in `src/unnamed/part_001` lines 90–101 is identical),
as a pure function returning the updated tree. -/
def addFileToSystem (fs : FileSystem) (path content : String) : FileSystem :=
  insertParts fs (pathParts path) content

/-- The path construction of `getFileSystemAsText`'s `traverse`:
`path ? \x60${path}/${name}\x60 : name`. -/
def joinName (path name : String) : String :=
  if path = "" then name else path ++ "/" ++ name

/-- The traversal underlying `getFileSystemAsText` (`src/App.tsx` lines
54–68), returning the `(currentPath, content)` pairs of all files in
`Object.entries` order, under the accumulated path prefix `path`. -/
def fileEntries : FileSystem → String → List (String × String)
  | [], _ => []
  | (name, FSNode.file c) :: rest, path =>
    (joinName path name, c) :: fileEntries rest path
  | (name, FSNode.folder ch) :: rest, path =>
    fileEntries ch (joinName path name) ++ fileEntries rest path

/-- The string pushed per file by `getFileSystemAsText`:
`--- File: ${currentPath} ---\n\x60\x60\x60\n${content}\n\x60\x60\x60`. -/
def fileEntryText (currentPath content : String) : String :=
  "--- File: " ++ currentPath ++ " ---\n```\n" ++ content ++ "\n```"

/-- `getFileSystemAsText(fs)` from `src/App.tsx` lines 54–68: flatten the
tree to one formatted string per file, in traversal order. -/
def getFileSystemAsText (fs : FileSystem) : List String :=
  (fileEntries fs "").map (fun e => fileEntryText e.1 e.2)

/-- Join a non-empty segment list back into a `'/'`-separated path, the way
`traverse` accumulates `currentPath` from the root. -/
def joinSegs : List String → String
  | [] => ""
  | [s] => s
  | s :: rest => s ++ "/" ++ joinSegs rest

/-- First entry with the given path in a flattened `(path, content)` list. -/
def findEntry : List (String × String) → String → Option String
  | [], _ => none
  | (p, c) :: rest, key => if p = key then some c else findEntry rest key

/-- Retrieval of a path from the tree via flattening, the only read the
source performs on the tree: normalise the path the same way insertion does
and look its joined form up among the flattened file entries. -/
def retrieve (fs : FileSystem) (p : String) : Option String :=
  findEntry (fileEntries fs "") (joinSegs (pathParts p))

/-- Folding a sequence of `(path, content)` insertions into a tree, in
order, starting from a given tree. -/
def buildTree (fs : FileSystem) (ins : List (String × String)) : FileSystem :=
  match ins with
  | [] => fs
  | (p, c) :: rest => buildTree (addFileToSystem fs p c) rest

/-! ### Specification-side vocabulary for the file tree

These definitions are not part of the source; they are the vocabulary in
which the file-tree theorems are stated and proved (direct trie descent,
key wellformedness, path joining at the character level). -/

/-- Direct descent lookup of a segment path in the tree: the file content
at that path, if the path leads through folders to a file. -/
def lookupSegs : FileSystem → List String → Option String
  | _, [] => none
  | fs, [p] =>
    match objGet fs p with
    | some (FSNode.file c) => some c
    | _ => none
  | fs, p :: q :: rest =>
    match objGet fs p with
    | some (FSNode.folder ch) => lookupSegs ch (q :: rest)
    | _ => none

/-- A wellformed tree key: non-empty and free of the path separator.
Every key ever created by `addFileToSystem` is wellformed. -/
def goodKey (k : String) : Prop := k ≠ "" ∧ '/' ∉ k.data

/-- Trees all of whose keys (recursively) are wellformed and duplicate-free
on each level.  Trees built by `addFileToSystem` from the empty tree are of
this shape. -/
inductive GoodFS : FileSystem → Prop where
  | mk (fs : FileSystem)
      (hkeys : ∀ p ∈ fs, goodKey p.1)
      (hnodup : (fs.map Prod.fst).Nodup)
      (hrec : ∀ name ch, (name, FSNode.folder ch) ∈ fs → GoodFS ch) :
      GoodFS fs

/-- Character-level form of `joinSegs`. -/
def charJoin : List (List Char) → List Char
  | [] => []
  | [x] => x
  | x :: rest => x ++ '/' :: charJoin rest

/-! ## Session state and the streaming orchestrator (`src/App.tsx`)

The `useState` hooks of the `App` component become the fields of one
`Session` record.  The presentation-only hooks (`activeFile`,
`isScreenshotModalOpen`) are not modelled.  Each `useEffect` body and each
handler becomes a step function `Session → … → Session`; oracle arguments
stand for the network, the model backend and URL resolution. -/

/-- The session state of the `App` component. -/
structure Session where
  cloningState : CloningState
  agentLogs : List AgentLogEntry
  fileSystem : FileSystem
  mainHtmlContent : Option String
  urlToClone : String
  authUrl : String
  cloningQueue : List Job
  visitedUrls : List String
  consoleErrors : List String
  fixAttempts : Nat
  /-- Ghost field: every URL for which a page fetch was initiated. -/
  fetchLog : List String

/-- The initial hook values: `IDLE`, everything empty. -/
def initialSession : Session where
  cloningState := CloningState.IDLE
  agentLogs := []
  fileSystem := []
  mainHtmlContent := none
  urlToClone := ""
  authUrl := ""
  cloningQueue := []
  visitedUrls := []
  consoleErrors := []
  fixAttempts := 0
  fetchLog := []

/-- `MAX_FIX_ATTEMPTS` from `src/App.tsx`. -/
def MAX_FIX_ATTEMPTS : Nat := 3

/-- `addLog(message, type)`: append one entry to the agent log. -/
def addLog (s : Session) (message : String) (type : LogType) : Session :=
  { s with agentLogs := s.agentLogs ++ [{ message := message, type := type }] }

/-- `Set.has` on the insertion-ordered visited list. -/
def listHas (l : List String) (u : String) : Bool :=
  match l with
  | [] => false
  | x :: xs => if x = u then true else listHas xs u

/-- `new Set(prev).add(url)`: append only when absent. -/
def setAdd (l : List String) (u : String) : List String :=
  if listHas l u then l else l ++ [u]

/-- `queue.some(j => j.url === url)`. -/
def queueHas (q : List Job) (u : String) : Bool :=
  match q with
  | [] => false
  | j :: rest => if j.url = u then true else queueHas rest u

/-- Character-level prefix test (for substring containment). -/
def charsStartsWith : List Char → List Char → Bool
  | _, [] => true
  | [], _ :: _ => false
  | h :: hs, n :: ns => if h = n then charsStartsWith hs ns else false

/-- Character-level substring containment. -/
def charsIncludes (hay needle : List Char) : Bool :=
  if charsStartsWith hay needle then true
  else
    match hay with
    | [] => false
    | _ :: t => charsIncludes t needle

/-- `hay.includes(needle)` of JavaScript strings. -/
def strIncludes (hay needle : String) : Bool :=
  charsIncludes hay.data needle.data

/-- The `consoleCaptureScript` template string from `src/App.tsx` lines
28–52 (braces written as `\x7b`/`\x7d`, quotes as `\x27`). -/
def consoleCaptureScript : String :=
  "\n<script>\n  const originalError = console.error;\n  console.error = function(...args) \x7b\n    const message = args.map(arg => \x7b\n        try \x7b\n            if (arg instanceof Error) return arg.stack;\n            if (typeof arg === \x27object\x27 && arg !== null) return JSON.stringify(arg);\n            return String(arg);\n        \x7d catch (e) \x7b\n            return \x27Unserializable object\x27;\n        \x7d\n    \x7d).join(\x27 \x27);\n    window.parent.postMessage(\x7b type: \x27console-error\x27, message \x7d, \x27*\x27);\n    originalError.apply(console, args);\n  \x7d;\n  window.addEventListener(\x27error\x27, function(event) \x7b\n    window.parent.postMessage(\x7b type: \x27console-error\x27, message: event.message + \x27 at \x27 + event.filename + \x27:\x27 + event.lineno \x7d, \x27*\x27);\n  \x7d);\n  window.addEventListener(\x27unhandledrejection\x27, event => \x7b\n    const reason = event.reason instanceof Error ? event.reason.stack : String(event.reason);\n    window.parent.postMessage(\x7b type: \x27console-error\x27, message: \x27Unhandled promise rejection: \x27 + reason \x7d, \x27*\x27);\n  \x7d);\n</script>\n"

/-- One parsed record of the streamed model response (`src/App.tsx`
lines 460–497).  `other` is a JSON object with an unknown `action` field
(carrying its serialisation); `malformed` is a non-JSON line, which the
loop logs and ignores. -/
inductive StreamItem where
  | thought (content : String)
  | file (path content : String)
  | authWall (message : String)
  | nextPage (url : String)
  | complete (message : String)
  | other (raw : String)
  | malformed (line : String)
deriving DecidableEq, Repr

/-- Outcome of the proxied page fetch (plus any exception thrown later in
the `try` block): a decoded body, a non-ok HTTP status (the source then
throws `Failed to fetch URL …`), or some other thrown error message. -/
inductive FetchOutcome where
  | ok (html : String)
  | httpError (status : Nat)
  | exn (msg : String)
deriving DecidableEq, Repr

/-- `handleStreamedAction(action, currentUrl)` from `src/App.tsx` lines
460–497, returning the updated session and the boolean the source returns
(`true` = stop processing this page).

`staleVisited` and `staleHtml` are the closure-captured `visitedUrls` and
`mainHtmlContent` of the render that created the running effect: the
source reads these variables directly (lines 470 and 483) after having
queued updates for them, so within one `processQueue` run they keep their
pre-run values. -/
def handleStreamedAction (staleVisited : List String) (staleHtml : Option String)
    (currentUrl : String) (resolve : String → String → Option String)
    (s : Session) (item : StreamItem) : Session × Bool :=
  match item with
  | StreamItem.thought content => (addLog s content LogType.THOUGHT, false)
  | StreamItem.file path content =>
    let s1 := addLog s ("Creating file: " ++ path) LogType.INFO
    let s2 := { s1 with fileSystem := addFileToSystem s1.fileSystem path content }
    if path.endsWith ".html" ∧ staleHtml = none then
      ({ s2 with mainHtmlContent := some (consoleCaptureScript ++ content) }, false)
    else (s2, false)
  | StreamItem.authWall message =>
    let s1 := addLog s ("AI Agent: \"" ++ message ++ "\"") LogType.WARN
    ({ s1 with authUrl := currentUrl, cloningState := CloningState.AWAITING_USER_INPUT }, true)
  | StreamItem.nextPage url =>
    match resolve url currentUrl with
    | none => (addLog s ("AI returned an invalid next page URL: " ++ url) LogType.WARN, false)
    | some nextUrl =>
      if listHas staleVisited nextUrl = false ∧ queueHas s.cloningQueue nextUrl = false ∧
          s.cloningQueue.length + staleVisited.length < 5 then
        let s1 := addLog s ("AI queued next page: " ++ nextUrl) LogType.INFO
        ({ s1 with cloningQueue := s1.cloningQueue ++ [{ url := nextUrl }] }, false)
      else (s, false)
  | StreamItem.complete message => (addLog s message LogType.SUCCESS, false)
  | StreamItem.other raw => (addLog s ("Unknown AI action: " ++ raw) LogType.WARN, false)
  | StreamItem.malformed line => (addLog s ("AI Output (non-JSON): " ++ line) LogType.DEBUG, false)

/-- The newline-delimited record loop of `processQueue` (`src/App.tsx`
lines 415–438): handle records in order until one returns `true`. -/
def runStream (staleVisited : List String) (staleHtml : Option String)
    (currentUrl : String) (resolve : String → String → Option String)
    (s : Session) : List StreamItem → Session × Bool
  | [] => (s, false)
  | item :: rest =>
    match handleStreamedAction staleVisited staleHtml currentUrl resolve s item with
    | (s', true) => (s', true)
    | (s', false) => runStream staleVisited staleHtml currentUrl resolve s' rest

/-- The tail of a successful `processQueue` run (`src/App.tsx` lines
413–450): drain the streamed records, then parse-and-handle the trailing
unterminated buffer (whose returned stop flag line 442 discards), and
advance the queue unless a handled record stopped processing. -/
def streamPhase (sv : List String) (sh : Option String) (cu : String)
    (resolve : String → String → Option String) (items : List StreamItem)
    (trailing : Option StreamItem) (s6 : Session) : Session :=
  match runStream sv sh cu resolve s6 items with
  | (s7, true) => s7
  | (s7, false) =>
    let s8 :=
      match trailing with
      | none => s7
      | some item => (handleStreamedAction sv sh cu resolve s7 item).1
    { s8 with cloningQueue := s8.cloningQueue.tail }

/-- The visited-marking and pre-fetch logging of a fresh job
(`src/App.tsx` lines 349–354), together with the ghost fetch-log append
for the fetch the `try` block then performs. -/
def markAndLog (s : Session) (job : Job) : Session :=
  let s1 := { s with visitedUrls := setAdd s.visitedUrls job.url }
  let s2 := addLog s1 ("Cloning page (" ++ toString (s.visitedUrls.length + 1) ++ "/5): " ++
    job.url) LogType.SYSTEM
  let s3 := addLog s2 "Fetching source code..." LogType.INFO
  { s3 with fetchLog := s3.fetchLog ++ [job.url] }

/-- The post-fetch logging before the model stream is consumed
(`src/App.tsx` lines 358 and 412). -/
def dispatchSession (s4 : Session) : Session :=
  addLog (addLog s4 "Successfully fetched page source." LogType.SUCCESS)
    "Dispatching AI agent. Streaming response..." LogType.SYSTEM

/-- `processQueue` from `src/App.tsx` lines 339–458, one run of the
queue-draining effect.

* `items` are the records parsed from complete (newline-terminated) lines;
  `trailing` is the record parsed from the final unterminated buffer, if
  any.  The source handles `trailing` after the loop (lines 439–446) and
  *discards* its returned stop flag (line 442).
* Asset discovery and asset fetches (lines 360–373) only contribute to the
  model prompt and to the log, never to the session fields the claims
  speak about; they are elided here.
* The `catch` of the surrounding `try` logs `An error occurred: …` and
  sets the state to `ERROR`; for a non-ok HTTP response the thrown message
  is `Failed to fetch URL ${'{'}url{'}'}. Status: ${'{'}status{'}'}.`. -/
def processQueue (s : Session) (resolve : String → String → Option String)
    (fetch : FetchOutcome) (items : List StreamItem) (trailing : Option StreamItem) : Session :=
  if s.cloningState ≠ CloningState.CLONING ∨ s.cloningQueue = [] then s
  else
    match s.cloningQueue with
    | [] => s
    | job :: rest =>
      if listHas s.visitedUrls job.url then { s with cloningQueue := rest }
      else
        let s4 := markAndLog s job
        match fetch with
        | FetchOutcome.httpError status =>
          let msg := "Failed to fetch URL " ++ job.url ++ ". Status: " ++ toString status ++ "."
          { addLog s4 ("An error occurred: " ++ msg) LogType.ERROR with cloningState := CloningState.ERROR }
        | FetchOutcome.exn msg =>
          { addLog s4 ("An error occurred: " ++ msg) LogType.ERROR with cloningState := CloningState.ERROR }
        | FetchOutcome.ok _ =>
          streamPhase s.visitedUrls s.mainHtmlContent job.url resolve items trailing
            (dispatchSession s4)

/-- ASCII lowercasing of one character (what the `i` flag of the regex
`/^(https?:\/\/)/i` amounts to on its ASCII pattern). -/
def lowerAscii (c : Char) : Char :=
  if 'A' ≤ c ∧ c ≤ 'Z' then Char.ofNat (c.toNat + 32) else c

/-- Case-insensitive prefix test at the character level. -/
def charsPrefixCI : List Char → List Char → Bool
  | _, [] => true
  | [], _ :: _ => false
  | h :: hs, n :: ns => if lowerAscii h = lowerAscii n then charsPrefixCI hs ns else false

/-- `/^(https?:\/\/)/i.test(url)`. -/
def hasHttpPrefix (s : String) : Bool :=
  charsPrefixCI s.data ("http://").data || charsPrefixCI s.data ("https://").data

/-- `url.trim()` at the character level (drop whitespace from both ends). -/
def jsTrim (s : String) : String :=
  String.mk (((s.data.dropWhile Char.isWhitespace).reverse.dropWhile Char.isWhitespace).reverse)

/-- `handleInitiateCloning(rawUrl, useScreenshot)` from `src/App.tsx`
lines 104–134.  `openOk` tells whether `window.open` succeeded. -/
def handleInitiateCloning (s : Session) (rawUrl : String) (useScreenshot openOk : Bool) : Session :=
  if rawUrl = "" ∨ (s.cloningState ≠ CloningState.IDLE ∧ s.cloningState ≠ CloningState.COMPLETED ∧
      s.cloningState ≠ CloningState.ERROR) then s
  else
    let url := if hasHttpPrefix (jsTrim rawUrl) then jsTrim rawUrl
      else "https://" ++ jsTrim rawUrl
    let s1 := { s with
      cloningState := CloningState.CLONING, agentLogs := [], fileSystem := [],
      mainHtmlContent := none, visitedUrls := [], consoleErrors := [], fixAttempts := 0,
      fetchLog := [] }
    let s2 := addLog s1 "Initializing Full-Stack Agentic Cloner v6.0 (Streaming)..." LogType.SYSTEM
    let s3 := { s2 with urlToClone := url }
    if useScreenshot then
      if openOk then s3
      else
        { addLog s3 ("Could not open new tab for URL: " ++ url ++ ". Please check browser pop-up settings.")
            LogType.ERROR with cloningState := CloningState.ERROR }
    else { s3 with cloningQueue := [{ url := url }] }

/-- `handleScreenshotReady` from `src/App.tsx` lines 136–139 (the modal
flag is presentation-only and not modelled). -/
def handleScreenshotReady (s : Session) : Session :=
  { s with cloningQueue := [{ url := s.urlToClone, hasScreenshot := true }] }

/-- `handleResumeCloning(nextUrl)` from `src/App.tsx` lines 141–151. -/
def handleResumeCloning (s : Session) (nextUrl : String) : Session :=
  if nextUrl = "" then
    { addLog s "Resuming cancelled. No URL provided." LogType.WARN with cloningState := CloningState.ERROR }
  else
    let s1 := addLog s ("User provided new URL. Resuming cloning process at: " ++ nextUrl) LogType.SYSTEM
    { s1 with cloningQueue := s1.cloningQueue ++ [{ url := nextUrl }],
              authUrl := "", cloningState := CloningState.CLONING }

/-- The `onCancel` handler of the auth prompt (`src/App.tsx` lines 576–579). -/
def cancelAuthPrompt (s : Session) : Session :=
  { addLog s "User cancelled authentication. Cloning stopped." LogType.WARN with
    cloningState := CloningState.ERROR }

/-- The queue-drained effect (`src/App.tsx` lines 502–507): when cloning,
the queue is empty and at least one page was visited, move to
`QUALITY_CHECK`. -/
def drainCheck (s : Session) : Session :=
  if s.cloningState = CloningState.CLONING ∧ s.cloningQueue = [] ∧ s.visitedUrls ≠ [] then
    { addLog s ("Initial cloning phase complete. Cloned " ++ toString s.visitedUrls.length ++
        " page(s). Starting AI quality review...") LogType.SYSTEM with
      cloningState := CloningState.QUALITY_CHECK }
  else s

/-- Outcome of the quality-review model call: a thrown error, or a parsed
`{analysis, filesToUpdate}` object. -/
inductive QualityOutcome where
  | exn (msg : String)
  | result (analysis : String) (filesToUpdate : List (String × String))
deriving DecidableEq, Repr

/-- The per-file loop shared by the quality-review and auto-fix paths
(`src/App.tsx` lines 216–223 and 312–319): merge each `{path, content}`
into the tree and, for `.html` files, unconditionally replace the preview
document.  (When no `.html` file is updated the source forces an iframe
refresh by appending and then trimming a space; the net session effect is
the identity and is not modelled.) -/
def applyUpdates (logPrefix : String) : Session → List (String × String) → Session
  | s, [] => s
  | s, (path, content) :: rest =>
    let s1 := addLog s (logPrefix ++ path) LogType.DEBUG
    let s2 := { s1 with fileSystem := addFileToSystem s1.fileSystem path content }
    let s3 :=
      if path.endsWith ".html" then
        { s2 with mainHtmlContent := some (consoleCaptureScript ++ content) }
      else s2
    applyUpdates logPrefix s3 rest

/-- `handleQualityCheck` from `src/App.tsx` lines 153–242, with the model
call abstracted to a `QualityOutcome`. -/
def handleQualityCheck (s : Session) (q : QualityOutcome) : Session :=
  let s1 := addLog s "AI is reviewing code for quality improvements..." LogType.DEBUG
  match q with
  | QualityOutcome.exn msg =>
    { addLog s1 ("Failed to perform quality check: " ++ msg) LogType.ERROR with
      cloningState := CloningState.ERROR }
  | QualityOutcome.result analysis files =>
    let s2 :=
      if files = [] then addLog s1 "AI Quality Review: No improvements suggested." LogType.SYSTEM
      else
        let sa := addLog s1 ("AI Quality Review: " ++ analysis) LogType.SYSTEM
        let sb := applyUpdates "AI is applying quality improvement to: " sa files
        addLog sb "AI applied quality improvements." LogType.SUCCESS
    { addLog s2 "Cloning process complete. Now monitoring for errors." LogType.SYSTEM with
      cloningState := CloningState.COMPLETED }

/-- The effect guarding `handleQualityCheck` (`src/App.tsx` lines 509–513). -/
def qualityEffect (s : Session) (q : QualityOutcome) : Session :=
  if s.cloningState = CloningState.QUALITY_CHECK then handleQualityCheck s q else s

/-- Outcome of the auto-fix model call. -/
inductive FixOutcome where
  | exn (msg : String)
  | result (analysis : String) (filesToUpdate : List (String × String))
deriving DecidableEq, Repr

/-- `handleAutoFix(errors)` from `src/App.tsx` lines 244–336, with the
model call abstracted to a `FixOutcome`. -/
def handleAutoFix (s : Session) (errors : List String) (fix : FixOutcome) : Session :=
  let s1 := { s with
    cloningState := CloningState.FIXING, fixAttempts := s.fixAttempts + 1,
    consoleErrors := [] }
  let s2 := addLog s1 ("Analyzing " ++ toString errors.length ++ " console error(s)...") LogType.DEBUG
  match fix with
  | FixOutcome.exn msg =>
    { addLog s2 ("Failed to apply fix: " ++ msg) LogType.ERROR with
      cloningState := CloningState.ERROR }
  | FixOutcome.result analysis files =>
    let s3 := addLog s2 ("AI Analysis: " ++ analysis) LogType.SYSTEM
    if files = [] then
      { addLog s3 "AI analyzed the error but did not provide a file to fix. Stopping auto-fix."
          LogType.WARN with cloningState := CloningState.ERROR }
    else
      let s4 := applyUpdates "AI is applying fix to: " s3 files
      { addLog s4 "AI proposed a fix. Applied changes and reloading preview." LogType.SUCCESS with
        cloningState := CloningState.COMPLETED }

/-- The console-error watcher effect (`src/App.tsx` lines 528–539): start
an auto-fix when errors exist, the state is terminal and attempts remain;
otherwise, with attempts exhausted and no fix in flight, go to `ERROR`
without any model call. -/
def consoleErrorsEffect (s : Session) (fix : FixOutcome) : Session :=
  if s.consoleErrors ≠ [] ∧
      (s.cloningState = CloningState.COMPLETED ∨ s.cloningState = CloningState.ERROR) ∧
      s.fixAttempts < MAX_FIX_ATTEMPTS then
    let s1 := addLog s ("Detected " ++ toString s.consoleErrors.length ++
        " console error(s). Attempting to auto-fix... (Attempt " ++
        toString (s.fixAttempts + 1) ++ "/" ++ toString MAX_FIX_ATTEMPTS ++ ")") LogType.SYSTEM
    handleAutoFix s1 s.consoleErrors fix
  else if s.consoleErrors ≠ [] ∧ MAX_FIX_ATTEMPTS ≤ s.fixAttempts ∧
      s.cloningState ≠ CloningState.FIXING then
    { addLog s "Max auto-fix attempts reached. Please fix the remaining errors manually."
        LogType.WARN with cloningState := CloningState.ERROR }
  else s

/-- The `message` listener (`src/App.tsx` lines 515–526): append a
console-error message unless an already-recorded error contains it. -/
def consoleErrorMessage (s : Session) (message : String) : Session :=
  if s.consoleErrors.any (fun e => strIncludes e message) then s
  else { s with consoleErrors := s.consoleErrors ++ [message] }

/-- Sessions reachable by the orchestrator's operations, starting from the
initial hook values.  The flag selects whether auth-wall resumption
(`handleResumeCloning`) is among the allowed operations.

Side conditions mirror facts of the source that are not inside the step
functions themselves: `resume`/`cancelAuth` require
`AWAITING_USER_INPUT` because the `AuthPrompt` component is only rendered
in that state (line 572), and `screenshotReady` may not preempt the
already-pending queue-drained effect (React runs pending effects before
later user events are handled). -/
inductive Reach : Bool → Session → Prop where
  | init (allowResume : Bool) : Reach allowResume initialSession
  | seed (b : Bool) (s : Session) (rawUrl : String) (useScreenshot openOk : Bool) :
      Reach b s → Reach b (handleInitiateCloning s rawUrl useScreenshot openOk)
  | screenshotReady (b : Bool) (s : Session) : Reach b s →
      ¬ (s.cloningState = CloningState.CLONING ∧ s.cloningQueue = [] ∧ s.visitedUrls ≠ []) →
      Reach b (handleScreenshotReady s)
  | processStep (b : Bool) (s : Session) (resolve : String → String → Option String)
      (fetch : FetchOutcome) (items : List StreamItem) (trailing : Option StreamItem) :
      Reach b s → Reach b (processQueue s resolve fetch items trailing)
  | drain (b : Bool) (s : Session) : Reach b s → Reach b (drainCheck s)
  | quality (b : Bool) (s : Session) (q : QualityOutcome) : Reach b s →
      Reach b (qualityEffect s q)
  | message (b : Bool) (s : Session) (m : String) : Reach b s →
      Reach b (consoleErrorMessage s m)
  | fixTrigger (b : Bool) (s : Session) (fix : FixOutcome) : Reach b s →
      Reach b (consoleErrorsEffect s fix)
  | resume (s : Session) (nextUrl : String) : Reach true s →
      s.cloningState = CloningState.AWAITING_USER_INPUT →
      Reach true (handleResumeCloning s nextUrl)
  | cancelAuth (b : Bool) (s : Session) : Reach b s →
      s.cloningState = CloningState.AWAITING_USER_INPUT →
      Reach b (cancelAuthPrompt s)

/-! ## The batch variant (`src/unnamed/part_001`)

The earlier orchestrator: `clonePage` performs one structured
(schema-validated) model call per page and its `processQueue` effect
(lines 431–470) drives it.  It shares the `Session` shape with the
streaming variant.  `cloningQueue.shift()` mutates the state array in
place, so from the `shift` on, the queue the code observes is the tail. -/

namespace Batch

/-- `MAX_PAGES` from `clonePage`. -/
def MAX_PAGES : Nat := 5

/-- The parsed batch model response, per the declared response schema
(`thoughtProcess`, `isAuthWall`, `messageForUser`, `files`,
`backendFiles` required; `nextPageUrl` optional). -/
structure BatchResult where
  thoughtProcess : String
  isAuthWall : Bool
  messageForUser : String
  files : List (String × String)
  backendFiles : List (String × String)
  nextPageUrl : Option String
deriving DecidableEq, Repr

/-- Outcome of the fetch plus model call inside `clonePage`'s `try`:
a non-ok HTTP status (which throws `Failed to fetch URL …`), some other
thrown error (network, schema/parse failure), or a parsed result. -/
inductive BatchOutcome where
  | httpError (status : Nat)
  | exn (msg : String)
  | ok (result : BatchResult)

/-- The file-merge loop of `clonePage` (`src/unnamed/part_001` lines
316–325).  `staleHtml` is the closure-captured `mainHtmlContent`, read by
every iteration of the synchronous loop. -/
def applyFiles (staleHtml : Option String) : Session → List (String × String) → Session
  | s, [] => s
  | s, (path, content) :: rest =>
    let s1 := { s with fileSystem := Cloner.addFileToSystem s.fileSystem path content }
    let s2 :=
      if path.endsWith ".html" ∧ staleHtml = none then
        { s1 with mainHtmlContent := some (Cloner.consoleCaptureScript ++ content) }
      else s1
    let s3 := Cloner.addLog s2 ("Created/Updated file: " ++ path) LogType.INFO
    applyFiles staleHtml s3 rest

/-- One run of the batch `processQueue` effect (`src/unnamed/part_001`
lines 431–470) together with the inlined `clonePage` (lines 152–336).
Asset fetching is elided as in the streaming model.  Reads of
`visitedUrls` and `mainHtmlContent` after `setVisitedUrls` /
`setMainHtmlContent` use the stale closure values, hence the uses of
`s.visitedUrls` and `s.mainHtmlContent` below the marking point. -/
def processQueue (s : Session) (resolve : String → String → Option String)
    (out : BatchOutcome) : Session :=
  if s.cloningState = CloningState.CLONING ∧ s.cloningQueue ≠ [] then
    match s.cloningQueue with
    | [] => s
    | job :: rest =>
      if Cloner.listHas s.visitedUrls job.url then { s with cloningQueue := rest }
      else if MAX_PAGES ≤ s.visitedUrls.length then
        -- clonePage returns unchanged with no next URL; the completion
        -- check `newQueue.length === 0 || visitedUrls.size >= 5` then
        -- fires on its second disjunct.
        { Cloner.addLog { s with cloningQueue := rest }
            ("Cloning process complete. Cloned " ++ toString (s.visitedUrls.length + 1) ++
              " page(s). Now monitoring for errors.") LogType.SUCCESS with
          cloningState := CloningState.COMPLETED }
      else
        let s1 := { s with
          visitedUrls := Cloner.setAdd s.visitedUrls job.url,
          cloningQueue := rest }
        let s2 := Cloner.addLog s1 ("Cloning page (" ++ toString (s.visitedUrls.length + 1) ++
            "/" ++ toString MAX_PAGES ++ "): " ++ job.url) LogType.SYSTEM
        let s3 := Cloner.addLog s2 ("Fetching source code for " ++ job.url ++ "...") LogType.INFO
        let s4 := { s3 with fetchLog := s3.fetchLog ++ [job.url] }
        match out with
        | BatchOutcome.httpError status =>
          let msg := "Failed to fetch URL " ++ job.url ++ ". Status: " ++ toString status ++ "."
          { Cloner.addLog s4 ("An error occurred: " ++ msg) LogType.ERROR with
            cloningState := CloningState.ERROR }
        | BatchOutcome.exn msg =>
          { Cloner.addLog s4 ("An error occurred: " ++ msg) LogType.ERROR with
            cloningState := CloningState.ERROR }
        | BatchOutcome.ok result =>
          let s5 := Cloner.addLog s4 "Successfully fetched page source." LogType.SUCCESS
          let s6 := Cloner.addLog s5 "AI analysis complete. Processing results." LogType.SUCCESS
          let s7 :=
            if result.thoughtProcess = "" then s6
            else Cloner.addLog s6 result.thoughtProcess LogType.THOUGHT
          let s8 := Cloner.addLog s7 ("AI Agent: \"" ++ result.messageForUser ++ "\"")
              (if result.isAuthWall then LogType.WARN else LogType.SYSTEM)
          if result.isAuthWall then
            -- clonePage: setAuthUrl(url); state AWAITING_USER_INPUT; stop.
            -- processQueue: setFileSystem(result.newFileSystem) is the
            -- unchanged closure tree, then returns before the queue logic.
            { s8 with authUrl := job.url, cloningState := CloningState.AWAITING_USER_INPUT }
          else
            let allFiles := result.files ++ result.backendFiles
            let s9 :=
              if allFiles = [] then
                Cloner.addLog s8 "AI did not return any files for this page." LogType.WARN
              else
                applyFiles s.mainHtmlContent
                  (Cloner.addLog s8 ("Reconstructing file system for " ++ job.url ++ ".") LogType.INFO)
                  allFiles
            let resolved : Session × Option String :=
              match result.nextPageUrl with
              | none => (s9, none)
              | some nu =>
                if nu = "" then (s9, none)
                else
                  match resolve nu job.url with
                  | some m => (s9, some m)
                  | none =>
                    (Cloner.addLog s9 ("AI returned an invalid next page URL: " ++ nu)
                      LogType.WARN, none)
            let s10 := resolved.1
            let enq : Session × List Job :=
              match resolved.2 with
              | some m =>
                if Cloner.listHas s.visitedUrls m = false ∧ Cloner.queueHas rest m = false then
                  (Cloner.addLog s10 ("AI identified next page to clone: " ++ m) LogType.INFO,
                    rest ++ [{ url := m }])
                else (s10, rest)
              | none => (s10, rest)
            let s11 := enq.1
            let newQueue := enq.2
            if newQueue = [] ∨ MAX_PAGES ≤ s.visitedUrls.length then
              { Cloner.addLog { s11 with cloningQueue := newQueue }
                  ("Cloning process complete. Cloned " ++ toString (s.visitedUrls.length + 1) ++
                    " page(s). Now monitoring for errors.") LogType.SUCCESS with
                cloningState := CloningState.COMPLETED }
            else { s11 with cloningQueue := newQueue }
  else s

end Batch

/-- A string mentions another when the latter occurs in it verbatim. -/
def mentions (m sub : String) : Prop := ∃ pre post, m = pre ++ sub ++ post

/-- The session invariant established for reachable states: the visited
set and the ghost fetch log are duplicate-free, every fetched URL is
visited, the fix counter respects its ceiling and — in the absence of
auth-wall resumption — the visited set and queue respect the page bound. -/
def SessionInv (b : Bool) (s : Session) : Prop :=
  s.visitedUrls.Nodup ∧ s.fixAttempts ≤ MAX_FIX_ATTEMPTS ∧ s.fetchLog.Nodup ∧
  (∀ u ∈ s.fetchLog, u ∈ s.visitedUrls) ∧
  (b = false → s.visitedUrls.length ≤ 5 ∧ s.cloningQueue.length ≤ 5 ∧
    (s.cloningState = CloningState.CLONING →
      s.visitedUrls.length + s.cloningQueue.length ≤ 5))

/-! ### Concrete scenario data

Oracles and sessions used by the concrete counterexample and witness
computations below. -/

/-- A URL resolver that always fails (never consulted in the scenarios
that use it). -/
def demoResolve : String → String → Option String := fun _ _ => none

/-- A URL resolver modelling `new URL(u, base)` for absolute `u`. -/
def demoResolveId : String → String → Option String := fun u _ => some u

/-- A streamed response consisting of one auth-wall record. -/
def demoAuthStream : List StreamItem := [StreamItem.authWall "login"]

/-- One auth-wall/resume cycle: the user resumes at `u`, the orchestrator
drops the stale head job and then processes `u` into another auth wall. -/
def c1Step (s : Session) (u : String) : Session :=
  processQueue (processQueue (handleResumeCloning s u) demoResolve (FetchOutcome.ok "")
    demoAuthStream none) demoResolve (FetchOutcome.ok "") demoAuthStream none

/-- Seed a clone of `https://u1.com` and hit an auth wall on it. -/
def c1Start : Session :=
  processQueue (handleInitiateCloning initialSession "https://u1.com" false true) demoResolve
    (FetchOutcome.ok "") demoAuthStream none

/-- Five further auth-wall/resume cycles on fresh URLs. -/
def c1Final : Session :=
  c1Step (c1Step (c1Step (c1Step (c1Step c1Start "u2") "u3") "u4") "u5") "u6"

/-- A cloning session about to process one fresh job. -/
def c5Session : Session :=
  { initialSession with
    cloningState := CloningState.CLONING,
    cloningQueue := [{ url := "https://page.example" }] }

/-- A cloning session with three visited pages and one fresh job. -/
def c6Session : Session :=
  { initialSession with
    cloningState := CloningState.CLONING,
    cloningQueue := [{ url := "https://p.example" }],
    visitedUrls := ["https://a.example", "https://b.example", "https://c.example"] }

/-- A terminal session with console errors and an exhausted fix budget. -/
def c2Session : Session :=
  { initialSession with
    cloningState := CloningState.COMPLETED,
    consoleErrors := ["ReferenceError: x is not defined"],
    fixAttempts := 3 }

/-- A cloning session about to process a login page (batch variant). -/
def c4Session : Session :=
  { initialSession with
    cloningState := CloningState.CLONING,
    cloningQueue := [{ url := "https://login.example" }],
    fileSystem := [("readme.txt", FSNode.file "hello")] }

/-- A batch model response that flags an auth wall. -/
def c4Result : Batch.BatchResult :=
  { thoughtProcess := "Detected an authentication wall.",
    isAuthWall := true,
    messageForUser := "Please sign in and provide the URL you land on.",
    files := [("public/index.html", "<html></html>")],
    backendFiles := [],
    nextPageUrl := none }

/-- A cloning session whose page fetch is about to fail. -/
def c7Session : Session :=
  { initialSession with
    cloningState := CloningState.CLONING,
    cloningQueue := [{ url := "https://missing.example" }] }

/-- A cloning session whose head job was already visited. -/
def c8Session : Session :=
  { initialSession with
    cloningState := CloningState.CLONING,
    cloningQueue := [{ url := "https://seen.example" }, { url := "https://next.example" }],
    visitedUrls := ["https://seen.example"] }

/-! ## Basic lemmas on the map and set operations -/

theorem objGet_objSet_self (fs : FileSystem) (k : String) (v : FSNode) :
    objGet (objSet fs k v) k = some v := by
  induction fs with
  | nil => simp [objSet, objGet]
  | cons p rest ih =>
    obtain ⟨k', v'⟩ := p
    by_cases h : k' = k
    · simp [objSet, objGet, h]
    · simp [objSet, objGet, h, ih]

theorem objGet_objSet_ne (fs : FileSystem) (k k' : String) (v : FSNode) (h : k' ≠ k) :
    objGet (objSet fs k v) k' = objGet fs k' := by
  induction fs with
  | nil => simp [objSet, objGet, Ne.symm h]
  | cons p rest ih =>
    obtain ⟨k₀, v₀⟩ := p
    by_cases h0 : k₀ = k
    · subst h0
      simp [objSet, objGet, Ne.symm h]
    · simp [objSet, objGet, h0, ih]

theorem objGet_eq_none (fs : FileSystem) (k : String) (h : k ∉ fs.map Prod.fst) :
    objGet fs k = none := by
  induction fs with
  | nil => simp [objGet]
  | cons p rest ih =>
    obtain ⟨k₀, v₀⟩ := p
    simp only [List.map_cons, List.mem_cons, not_or] at h
    have hne : ¬ k₀ = k := fun hh => h.1 hh.symm
    simp [objGet, hne, ih h.2]

theorem mem_objSet (fs : FileSystem) (k : String) (v : FSNode) (p : String × FSNode)
    (h : p ∈ objSet fs k v) : p = (k, v) ∨ p ∈ fs := by
  induction fs with
  | nil => simpa [objSet] using h
  | cons q rest ih =>
    obtain ⟨k₀, v₀⟩ := q
    by_cases h0 : k₀ = k
    · subst h0
      rcases (by simpa [objSet] using h : p = (k₀, v) ∨ p ∈ rest) with h1 | h1
      · exact Or.inl h1
      · exact Or.inr (List.mem_cons_of_mem _ h1)
    · rcases (by simpa [objSet, h0] using h : p = (k₀, v₀) ∨ p ∈ objSet rest k v) with h1 | h1
      · exact Or.inr (by simp [h1])
      · rcases ih h1 with h2 | h2
        · exact Or.inl h2
        · exact Or.inr (List.mem_cons_of_mem _ h2)

theorem keys_objSet_of_mem (fs : FileSystem) (k : String) (v : FSNode)
    (h : k ∈ fs.map Prod.fst) : (objSet fs k v).map Prod.fst = fs.map Prod.fst := by
  induction fs with
  | nil => simp at h
  | cons q rest ih =>
    obtain ⟨k₀, v₀⟩ := q
    by_cases h0 : k₀ = k
    · simp [objSet, h0]
    · have hk : k ∈ rest.map Prod.fst := by
        rcases (by simpa using h) with h1 | h1
        · exact absurd h1.symm h0
        · simpa using h1
      simp [objSet, h0, ih hk]

theorem keys_objSet_of_not_mem (fs : FileSystem) (k : String) (v : FSNode)
    (h : k ∉ fs.map Prod.fst) : (objSet fs k v).map Prod.fst = fs.map Prod.fst ++ [k] := by
  induction fs with
  | nil => simp [objSet]
  | cons q rest ih =>
    obtain ⟨k₀, v₀⟩ := q
    simp only [List.map_cons, List.mem_cons, not_or] at h
    have h0 : k₀ ≠ k := fun hh => h.1 hh.symm
    simp [objSet, h0, ih h.2]

theorem listHas_iff (l : List String) (u : String) : listHas l u = true ↔ u ∈ l := by
  induction l with
  | nil => simp [listHas]
  | cons x xs ih =>
    by_cases h : x = u
    · simp [listHas, h]
    · simp [listHas, h, ih, Ne.symm h]

theorem listHas_false_iff (l : List String) (u : String) : listHas l u = false ↔ u ∉ l := by
  rw [← listHas_iff]
  cases listHas l u <;> simp

theorem setAdd_of_not_mem (l : List String) (u : String) (h : u ∉ l) :
    setAdd l u = l ++ [u] := by
  simp [setAdd, (listHas_false_iff l u).2 h]

theorem mem_setAdd (l : List String) (u v : String) : v ∈ setAdd l u ↔ v ∈ l ∨ v = u := by
  unfold setAdd
  split
  · next h =>
    have := (listHas_iff l u).1 h
    constructor
    · exact fun hv => Or.inl hv
    · rintro (hv | hv)
      · exact hv
      · exact hv ▸ this
  · simp

theorem setAdd_nodup (l : List String) (u : String) (h : l.Nodup) : (setAdd l u).Nodup := by
  unfold setAdd
  split
  · exact h
  · next hh =>
    have hu : u ∉ l := (listHas_false_iff l u).1 (by simpa using hh)
    simp [List.nodup_append, h, List.Disjoint]
    intro a ha hau
    exact hu (hau ▸ ha)

theorem setAdd_length_le (l : List String) (u : String) :
    (setAdd l u).length ≤ l.length + 1 := by
  unfold setAdd
  split
  · omega
  · simp

/-! ## Path segments: wellformedness and injectivity of joining -/

theorem jsSplitChars_no_sep (c : Char) :
    ∀ (l : List Char), ∀ piece ∈ jsSplitChars c l, c ∉ piece := by
  intro l
  induction l with
  | nil => intro piece h; simp [jsSplitChars] at h; simp [h]
  | cons x xs ih =>
    intro piece h
    by_cases hx : x = c
    · rcases (by simpa [jsSplitChars, hx] using h : piece = [] ∨ piece ∈ jsSplitChars c xs) with
        h1 | h1
      · simp [h1]
      · exact ih piece h1
    · rcases hrec : jsSplitChars c xs with _ | ⟨p, r⟩
      · have : piece = [x] := by simpa [jsSplitChars, hx, hrec] using h
        subst this
        simpa using fun hc => hx hc.symm
      · rcases (by simpa [jsSplitChars, hx, hrec] using h :
            piece = x :: p ∨ piece ∈ r) with h1 | h1
        · subst h1
          have hp : c ∉ p := ih p (by rw [hrec]; exact List.mem_cons_self p r)
          simp only [List.mem_cons, not_or]
          exact ⟨fun hc => hx hc.symm, hp⟩
        · exact ih piece (by rw [hrec]; exact List.mem_cons_of_mem _ h1)

theorem string_ne_empty_iff (s : String) : s ≠ "" ↔ s.data ≠ [] := by
  constructor
  · intro h hd
    exact h (String.ext hd)
  · intro h hs
    exact h (by simp [hs])

theorem pathParts_good (path : String) : ∀ s ∈ pathParts path, goodKey s := by
  intro s hs
  simp only [pathParts, List.mem_filter, List.mem_map, decide_eq_true_eq] at hs
  obtain ⟨⟨piece, hpiece, hmk⟩, hnonempty⟩ := hs
  refine ⟨hnonempty, ?_⟩
  have := jsSplitChars_no_sep '/' path.data piece hpiece
  rw [← hmk]
  exact this

theorem data_joinSegs : ∀ (l : List String), (joinSegs l).data = charJoin (l.map String.data)
  | [] => by simp [joinSegs, charJoin]
  | [s] => by simp [joinSegs, charJoin]
  | s :: t :: r => by
    have ih := data_joinSegs (t :: r)
    simp [joinSegs, charJoin, String.data_append, ih]

theorem splitAtSlash : ∀ (x y r1 r2 : List Char), '/' ∉ x → '/' ∉ y →
    x ++ '/' :: r1 = y ++ '/' :: r2 → x = y ∧ r1 = r2 := by
  intro x
  induction x with
  | nil =>
    intro y r1 r2 _ hy h
    cases y with
    | nil => simpa using h
    | cons d ys =>
      exfalso
      have : '/' = d := by simpa using congrArg (fun l => l.head?) h
      exact hy (by simp [← this])
  | cons c xs ih =>
    intro y r1 r2 hx hy h
    cases y with
    | nil =>
      exfalso
      have : c = '/' := by simpa using congrArg (fun l => l.head?) h
      exact hx (by simp [this])
    | cons d ys =>
      have hcd : c = d := by simpa using congrArg (fun l => l.head?) h
      subst hcd
      have htail : xs ++ '/' :: r1 = ys ++ '/' :: r2 := by simpa using h
      have hx' : '/' ∉ xs := fun hc => hx (List.mem_cons_of_mem _ hc)
      have hy' : '/' ∉ ys := fun hc => hy (List.mem_cons_of_mem _ hc)
      obtain ⟨h1, h2⟩ := ih ys r1 r2 hx' hy' htail
      exact ⟨by simp [h1], h2⟩

theorem slash_mem_charJoin (x y : List Char) (r : List (List Char)) :
    '/' ∈ charJoin (x :: y :: r) := by
  simp [charJoin]

theorem charJoin_ne_nil (x : List Char) (r : List (List Char)) (hx : x ≠ []) :
    charJoin (x :: r) ≠ [] := by
  cases r with
  | nil => simpa [charJoin] using hx
  | cons y rs =>
    simp only [charJoin]
    intro h
    rcases List.append_eq_nil.1 h with ⟨_, h2⟩
    simp at h2

theorem charJoin_inj : ∀ (a b : List (List Char)),
    (∀ x ∈ a, x ≠ [] ∧ '/' ∉ x) → (∀ x ∈ b, x ≠ [] ∧ '/' ∉ x) →
    charJoin a = charJoin b → a = b
  | [], [], _, _, _ => rfl
  | [], x :: r, _, hb, h => by
    exact absurd h.symm (charJoin_ne_nil x r (hb x (List.mem_cons_self x r)).1)
  | x :: r, [], ha, _, h => by
    exact absurd h (charJoin_ne_nil x r (ha x (List.mem_cons_self x r)).1)
  | [x], [y], _, _, h => by simpa [charJoin] using h
  | [x], y :: z :: r, ha, hb, h => by
    exfalso
    have hsl : '/' ∈ charJoin (y :: z :: r) := slash_mem_charJoin y z r
    rw [← h] at hsl
    exact (ha x (List.mem_cons_self x [])).2 (by simpa [charJoin] using hsl)
  | x :: z :: r, [y], ha, hb, h => by
    exfalso
    have hsl : '/' ∈ charJoin (x :: z :: r) := slash_mem_charJoin x z r
    rw [h] at hsl
    exact (hb y (List.mem_cons_self y [])).2 (by simpa [charJoin] using hsl)
  | x :: x2 :: r1, y :: y2 :: r2, ha, hb, h => by
    simp only [charJoin] at h
    obtain ⟨h1, h2⟩ := splitAtSlash x y _ _
      (ha x (List.mem_cons_self _ _)).2 (hb y (List.mem_cons_self _ _)).2 h
    have := charJoin_inj (x2 :: r1) (y2 :: r2)
      (fun z hz => ha z (List.mem_cons_of_mem _ hz))
      (fun z hz => hb z (List.mem_cons_of_mem _ hz)) h2
    rw [h1, this]

theorem map_data_inj : ∀ (a b : List String), a.map String.data = b.map String.data → a = b
  | [], [], _ => rfl
  | [], _ :: _, h => by simp at h
  | _ :: _, [], h => by simp at h
  | x :: xs, y :: ys, h => by
    simp only [List.map_cons, List.cons.injEq] at h
    rw [String.ext h.1, map_data_inj xs ys h.2]

theorem goodKey_data (s : String) (h : goodKey s) : s.data ≠ [] ∧ '/' ∉ s.data :=
  ⟨(string_ne_empty_iff s).1 h.1, h.2⟩

theorem joinSegs_inj (a b : List String) (ha : ∀ s ∈ a, goodKey s)
    (hb : ∀ s ∈ b, goodKey s) (h : joinSegs a = joinSegs b) : a = b := by
  have hdata : charJoin (a.map String.data) = charJoin (b.map String.data) := by
    rw [← data_joinSegs, ← data_joinSegs, h]
  have := charJoin_inj (a.map String.data) (b.map String.data)
    (by
      intro x hx
      obtain ⟨s, hs, rfl⟩ := List.mem_map.1 hx
      exact goodKey_data s (ha s hs))
    (by
      intro x hx
      obtain ⟨s, hs, rfl⟩ := List.mem_map.1 hx
      exact goodKey_data s (hb s hs))
    hdata
  exact map_data_inj a b this

theorem joinSegs_ne_empty (l : List String) (hl : ∀ s ∈ l, goodKey s) (hne : l ≠ []) :
    joinSegs l ≠ "" := by
  cases l with
  | nil => exact absurd rfl hne
  | cons x r =>
    rw [string_ne_empty_iff, data_joinSegs]
    exact charJoin_ne_nil x.data (r.map String.data)
      ((goodKey_data x (hl x (List.mem_cons_self x r))).1)

theorem joinSegs_append : ∀ (a b : List String), a ≠ [] → b ≠ [] →
    joinSegs (a ++ b) = joinSegs a ++ "/" ++ joinSegs b
  | [], _, ha, _ => absurd rfl ha
  | [x], b, _, hb => by
    cases b with
    | nil => exact absurd rfl hb
    | cons y r => simp [joinSegs]
  | x :: y :: r, b, _, hb => by
    have ih := joinSegs_append (y :: r) b (by simp) hb
    have h1 : joinSegs (x :: y :: r ++ b) = x ++ "/" ++ joinSegs (y :: r ++ b) := by
      cases hyr : y :: r ++ b with
      | nil => simp at hyr
      | cons z zs =>
        rw [← hyr]
        simp only [joinSegs]
        rfl
    have h2 : joinSegs (x :: y :: r) = x ++ "/" ++ joinSegs (y :: r) := rfl
    rw [List.cons_append, h1, List.cons_append] at *
    rw [ih, h2]
    simp [String.append_assoc]

theorem joinName_joinSegs (pre : List String) (name : String)
    (hpre : ∀ s ∈ pre, goodKey s) :
    joinName (joinSegs pre) name = joinSegs (pre ++ [name]) := by
  cases pre with
  | nil => simp [joinName, joinSegs]
  | cons x r =>
    have hne : joinSegs (x :: r) ≠ "" := joinSegs_ne_empty _ hpre (by simp)
    rw [joinName, if_neg hne, joinSegs_append (x :: r) [name] (by simp) (by simp)]
    simp [joinSegs]

/-! ## Trie lemmas for insertion and lookup -/

theorem lookupSegs_nil (segs : List String) (h : segs ≠ []) : lookupSegs [] segs = none := by
  cases segs with
  | nil => exact absurd rfl h
  | cons p s1 =>
    cases s1 with
    | nil => simp [lookupSegs, objGet]
    | cons q r => simp [lookupSegs, objGet]

theorem lookupSegs_cons_ne (name : String) (node : FSNode) (rest : FileSystem)
    (p : String) (s1 : List String) (h : name ≠ p) :
    lookupSegs ((name, node) :: rest) (p :: s1) = lookupSegs rest (p :: s1) := by
  cases s1 with
  | nil => simp [lookupSegs, objGet, h]
  | cons q r => simp [lookupSegs, objGet, h]

theorem lookupSegs_head_notin (T : FileSystem) (p : String) (s1 : List String)
    (h : p ∉ T.map Prod.fst) : lookupSegs T (p :: s1) = none := by
  have hget := objGet_eq_none T p h
  cases s1 with
  | nil => simp [lookupSegs, hget]
  | cons q r => simp [lookupSegs, hget]

theorem lookupSegs_insertParts_self :
    ∀ (segs : List String) (fs : FileSystem) (c : String), segs ≠ [] →
      lookupSegs (insertParts fs segs c) segs = some c
  | [], _, _, h => absurd rfl h
  | [p], fs, c, _ => by
    simp [insertParts, lookupSegs, objGet_objSet_self]
  | p :: q :: rest, fs, c, _ => by
    rcases hget : objGet fs p with _ | node
    · simp only [insertParts, hget, lookupSegs, objGet_objSet_self]
      exact lookupSegs_insertParts_self (q :: rest) [] c (by simp)
    · cases node with
      | file c0 =>
        simp only [insertParts, hget, lookupSegs, objGet_objSet_self]
        exact lookupSegs_insertParts_self (q :: rest) [] c (by simp)
      | folder ch =>
        simp only [insertParts, hget, lookupSegs, objGet_objSet_self]
        exact lookupSegs_insertParts_self (q :: rest) ch c (by simp)

theorem lookupSegs_insertParts_nil_of_diverge :
    ∀ (segs segs' : List String) (c' : String), segs ≠ [] →
      ¬ segs' <+: segs → ¬ segs <+: segs' →
      lookupSegs (insertParts [] segs' c') segs = none
  | [], _, _, h, _, _ => absurd rfl h
  | p :: s1, segs', c', _, hps, hsp => by
    cases segs' with
    | nil => exact absurd List.nil_prefix hps
    | cons p' s1' =>
      by_cases hpp : p' = p
      · have hps1 : ¬ s1' <+: s1 := fun hh => hps (List.cons_prefix_cons.mpr ⟨hpp, hh⟩)
        have hsp1 : ¬ s1 <+: s1' := fun hh => hsp (List.cons_prefix_cons.mpr ⟨hpp.symm, hh⟩)
        cases s1 with
        | nil => exact absurd List.nil_prefix hsp1
        | cons q r =>
          cases s1' with
          | nil => exact absurd List.nil_prefix hps1
          | cons q' r' =>
            have hrec := lookupSegs_insertParts_nil_of_diverge (q :: r) (q' :: r') c'
              (by simp) hps1 hsp1
            rw [hpp]
            simpa [insertParts, objSet, objGet, lookupSegs] using hrec
      · have hnone : objGet (insertParts [] (p' :: s1') c') p = none := by
          cases s1' with
          | nil => simp [insertParts, objSet, objGet, hpp]
          | cons q' r' => simp [insertParts, objSet, objGet, hpp]
        cases s1 with
        | nil => simp [lookupSegs, hnone]
        | cons q r => simp [lookupSegs, hnone]

theorem lookupSegs_insertParts_other :
    ∀ (segs segs' : List String) (fs : FileSystem) (c' : String), segs ≠ [] → segs' ≠ [] →
      ¬ segs' <+: segs → ¬ segs <+: segs' →
      lookupSegs (insertParts fs segs' c') segs = lookupSegs fs segs
  | [], _, _, _, h, _, _, _ => absurd rfl h
  | p :: s1, segs', fs, c', _, hne', hps, hsp => by
    cases segs' with
    | nil => exact absurd rfl hne'
    | cons p' s1' =>
      by_cases hpp : p' = p
      · have hps1 : ¬ s1' <+: s1 := fun hh => hps (List.cons_prefix_cons.mpr ⟨hpp, hh⟩)
        have hsp1 : ¬ s1 <+: s1' := fun hh => hsp (List.cons_prefix_cons.mpr ⟨hpp.symm, hh⟩)
        cases s1 with
        | nil => exact absurd List.nil_prefix hsp1
        | cons q r =>
          cases s1' with
          | nil => exact absurd List.nil_prefix hps1
          | cons q' r' =>
            rw [hpp]
            rcases hget : objGet fs p with _ | node
            · simp only [insertParts, hget, lookupSegs, objGet_objSet_self]
              exact lookupSegs_insertParts_nil_of_diverge (q :: r) (q' :: r') c'
                (by simp) hps1 hsp1
            · cases node with
              | file c0 =>
                simp only [insertParts, hget, lookupSegs, objGet_objSet_self]
                exact lookupSegs_insertParts_nil_of_diverge (q :: r) (q' :: r') c'
                  (by simp) hps1 hsp1
              | folder ch =>
                simp only [insertParts, hget, lookupSegs, objGet_objSet_self]
                exact lookupSegs_insertParts_other (q :: r) (q' :: r') ch c'
                  (by simp) (by simp) hps1 hsp1
      · have hset : ∀ v, objGet (objSet fs p' v) p = objGet fs p :=
          fun v => objGet_objSet_ne fs p' p v (fun hh => hpp hh.symm)
        cases s1' with
        | nil =>
          cases s1 with
          | nil => simp [insertParts, lookupSegs, hset]
          | cons q r => simp [insertParts, lookupSegs, hset]
        | cons q' r' =>
          cases s1 with
          | nil => simp [insertParts, lookupSegs, hset]
          | cons q r => simp [insertParts, lookupSegs, hset]

/-! ## Wellformedness of insertion-built trees -/

theorem goodFS_nil : GoodFS [] :=
  GoodFS.mk [] (by simp) (by simp) (by simp)

theorem goodKey_undefined : goodKey "undefined" :=
  ⟨by decide, by decide⟩

theorem objGet_mem (fs : FileSystem) (k : String) (v : FSNode) (h : objGet fs k = some v) :
    (k, v) ∈ fs := by
  induction fs with
  | nil => simp [objGet] at h
  | cons p rest ih =>
    obtain ⟨k₀, v₀⟩ := p
    by_cases h0 : k₀ = k
    · subst h0
      have : v₀ = v := by simpa [objGet] using h
      simp [this]
    · exact List.mem_cons_of_mem _ (ih (by simpa [objGet, h0] using h))

theorem goodFS_objSet (fs : FileSystem) (k : String) (v : FSNode) (hfs : GoodFS fs)
    (hk : goodKey k) (hv : ∀ ch, v = FSNode.folder ch → GoodFS ch) :
    GoodFS (objSet fs k v) := by
  obtain ⟨_, hkeys, hnodup, hrec⟩ := hfs
  refine GoodFS.mk _ ?_ ?_ ?_
  · intro p hp
    rcases mem_objSet fs k v p hp with h1 | h1
    · rw [h1]; exact hk
    · exact hkeys p h1
  · by_cases hmem : k ∈ fs.map Prod.fst
    · rw [keys_objSet_of_mem fs k v hmem]; exact hnodup
    · rw [keys_objSet_of_not_mem fs k v hmem]
      refine List.Nodup.append hnodup (List.nodup_singleton k) ?_
      intro a ha hak
      rw [List.mem_singleton] at hak
      exact hmem (hak ▸ ha)
  · intro name ch hmem
    rcases mem_objSet fs k v _ hmem with h1 | h1
    · simp only [Prod.mk.injEq] at h1
      exact hv ch h1.2.symm
    · exact hrec name ch h1

theorem goodFS_tail (p : String × FSNode) (rest : FileSystem) (h : GoodFS (p :: rest)) :
    GoodFS rest := by
  obtain ⟨_, hkeys, hnodup, hrec⟩ := h
  refine GoodFS.mk _ ?_ ?_ ?_
  · exact fun q hq => hkeys q (List.mem_cons_of_mem _ hq)
  · exact (List.nodup_cons.1 (by simpa using hnodup)).2
  · exact fun name ch hm => hrec name ch (List.mem_cons_of_mem _ hm)

theorem goodFS_insertParts :
    ∀ (segs : List String) (fs : FileSystem) (c : String), GoodFS fs →
      (∀ s ∈ segs, goodKey s) → GoodFS (insertParts fs segs c)
  | [], fs, c, hfs, _ => by
    simp only [insertParts]
    exact goodFS_objSet fs _ _ hfs goodKey_undefined (by intro ch h; cases h)
  | [p], fs, c, hfs, hsegs => by
    simp only [insertParts]
    exact goodFS_objSet fs _ _ hfs (hsegs p (by simp)) (by intro ch h; cases h)
  | p :: q :: rest, fs, c, hfs, hsegs => by
    have hgood : ∀ s ∈ q :: rest, goodKey s := fun s hs => hsegs s (List.mem_cons_of_mem _ hs)
    have hp : goodKey p := hsegs p (List.mem_cons_self _ _)
    rcases hget : objGet fs p with _ | node
    · simp only [insertParts, hget]
      refine goodFS_objSet fs _ _ hfs hp ?_
      rintro ch hch
      cases hch
      exact goodFS_insertParts (q :: rest) [] c goodFS_nil hgood
    · cases node with
      | file c0 =>
        simp only [insertParts, hget]
        refine goodFS_objSet fs _ _ hfs hp ?_
        rintro ch hch
        cases hch
        exact goodFS_insertParts (q :: rest) [] c goodFS_nil hgood
      | folder ch0 =>
        simp only [insertParts, hget]
        refine goodFS_objSet fs _ _ hfs hp ?_
        rintro ch hch
        cases hch
        have hch0 : GoodFS ch0 := by
          obtain ⟨_, _, _, hrec⟩ := hfs
          exact hrec p ch0 (objGet_mem fs p _ hget)
        exact goodFS_insertParts (q :: rest) ch0 c hch0 hgood

theorem goodFS_addFileToSystem (fs : FileSystem) (path content : String) (hfs : GoodFS fs) :
    GoodFS (addFileToSystem fs path content) :=
  goodFS_insertParts (pathParts path) fs content hfs (pathParts_good path)

theorem goodFS_buildTree : ∀ (ins : List (String × String)) (fs : FileSystem), GoodFS fs →
    GoodFS (buildTree fs ins)
  | [], _, hfs => hfs
  | (p, c) :: rest, fs, hfs =>
    goodFS_buildTree rest _ (goodFS_addFileToSystem fs p c hfs)

theorem buildTree_append (xs ys : List (String × String)) (fs : FileSystem) :
    buildTree fs (xs ++ ys) = buildTree (buildTree fs xs) ys := by
  induction xs generalizing fs with
  | nil => simp [buildTree]
  | cons e rest ih =>
    obtain ⟨p, c⟩ := e
    simp only [List.cons_append, buildTree]
    exact ih _

theorem lookupSegs_buildTree_other :
    ∀ (post : List (String × String)) (T : FileSystem) (segs : List String), segs ≠ [] →
      (∀ e ∈ post, ¬ pathParts e.1 <+: segs ∧ ¬ segs <+: pathParts e.1) →
      lookupSegs (buildTree T post) segs = lookupSegs T segs
  | [], _, _, _, _ => rfl
  | (p, c) :: rest, T, segs, hne, hpost => by
    have hp := hpost (p, c) (List.mem_cons_self _ _)
    have hpne : pathParts p ≠ [] := by
      intro hnil
      exact hp.1 (hnil ▸ List.nil_prefix)
    have step : lookupSegs (addFileToSystem T p c) segs = lookupSegs T segs :=
      lookupSegs_insertParts_other segs (pathParts p) T c hne hpne hp.1 hp.2
    calc lookupSegs (buildTree (addFileToSystem T p c) rest) segs
        = lookupSegs (addFileToSystem T p c) segs :=
          lookupSegs_buildTree_other rest _ segs hne
            (fun e he => hpost e (List.mem_cons_of_mem _ he))
      _ = lookupSegs T segs := step

/-! ## Correspondence of flattening lookup with trie descent -/

theorem joinSegs_append_inj (preSegs A B : List String)
    (hpre : ∀ s ∈ preSegs, goodKey s) (hA : ∀ s ∈ A, goodKey s) (hB : ∀ s ∈ B, goodKey s)
    (h : joinSegs (preSegs ++ A) = joinSegs (preSegs ++ B)) : A = B := by
  have hgoodA : ∀ s ∈ preSegs ++ A, goodKey s := by
    intro s hs
    rcases List.mem_append.1 hs with h1 | h1
    · exact hpre s h1
    · exact hA s h1
  have hgoodB : ∀ s ∈ preSegs ++ B, goodKey s := by
    intro s hs
    rcases List.mem_append.1 hs with h1 | h1
    · exact hpre s h1
    · exact hB s h1
  exact List.append_cancel_left (joinSegs_inj _ _ hgoodA hgoodB h)

theorem findEntry_append (xs ys : List (String × String)) (key : String) :
    findEntry (xs ++ ys) key = (findEntry xs key).or (findEntry ys key) := by
  induction xs with
  | nil => simp [findEntry]
  | cons e rest ih =>
    obtain ⟨p, c⟩ := e
    by_cases h : p = key
    · simp [findEntry, h]
    · simp [findEntry, h, ih]

theorem findEntry_eq_none (xs : List (String × String)) (key : String)
    (h : ∀ e ∈ xs, e.1 ≠ key) : findEntry xs key = none := by
  induction xs with
  | nil => rfl
  | cons e rest ih =>
    obtain ⟨p, c⟩ := e
    simp only [findEntry, if_neg (h (p, c) (List.mem_cons_self _ _))]
    exact ih fun e' he' => h e' (List.mem_cons_of_mem _ he')

theorem goodKey_head (T : FileSystem) (name : String) (node : FSNode)
    (hg : GoodFS ((name, node) :: T)) : goodKey name := by
  obtain ⟨_, hkeys, _, _⟩ := hg
  exact hkeys (name, node) (List.mem_cons_self _ _)

theorem goodFS_head_folder (T : FileSystem) (name : String) (ch : FileSystem)
    (hg : GoodFS ((name, FSNode.folder ch) :: T)) : GoodFS ch := by
  obtain ⟨_, _, _, hrec⟩ := hg
  exact hrec name ch (List.mem_cons_self _ _)

theorem head_notin_tail (T : FileSystem) (name : String) (node : FSNode)
    (hg : GoodFS ((name, node) :: T)) : name ∉ T.map Prod.fst := by
  obtain ⟨_, _, hnodup, _⟩ := hg
  exact (List.nodup_cons.1 (by simpa using hnodup)).1

theorem fileEntries_shape :
    ∀ (T : FileSystem) (preSegs : List String), GoodFS T → (∀ s ∈ preSegs, goodKey s) →
      ∀ e ∈ fileEntries T (joinSegs preSegs),
        ∃ k segs, goodKey k ∧ (∀ s ∈ segs, goodKey s) ∧ k ∈ T.map Prod.fst ∧
          e.1 = joinSegs (preSegs ++ k :: segs)
  | [], _, _, _ => by intro e he; simp [fileEntries] at he
  | (name, FSNode.file c) :: rest, preSegs, hg, hpre => by
    intro e he
    have hgname : goodKey name := goodKey_head rest name _ hg
    rcases (by
        simpa [fileEntries, joinName_joinSegs preSegs name hpre] using he :
        e = (joinSegs (preSegs ++ [name]), c) ∨ e ∈ fileEntries rest (joinSegs preSegs)) with
      h1 | h1
    · exact ⟨name, [], hgname, by simp, by simp, by rw [h1]⟩
    · obtain ⟨k, segs, hk, hsegs, hmem, hpath⟩ :=
        fileEntries_shape rest preSegs (goodFS_tail _ _ hg) hpre e h1
      exact ⟨k, segs, hk, hsegs, by simp [hmem], hpath⟩
  | (name, FSNode.folder ch) :: rest, preSegs, hg, hpre => by
    intro e he
    have hgname : goodKey name := goodKey_head rest name _ hg
    have hpre' : ∀ s ∈ preSegs ++ [name], goodKey s := by
      intro s hs
      rcases List.mem_append.1 hs with h1 | h1
      · exact hpre s h1
      · rw [List.mem_singleton.1 h1]; exact hgname
    rcases (by
        simpa [fileEntries, joinName_joinSegs preSegs name hpre] using he :
        e ∈ fileEntries ch (joinSegs (preSegs ++ [name])) ∨
          e ∈ fileEntries rest (joinSegs preSegs)) with h1 | h1
    · obtain ⟨k, segs, hk, hsegs, _, hpath⟩ :=
        fileEntries_shape ch (preSegs ++ [name]) (goodFS_head_folder rest name ch hg) hpre' e h1
      refine ⟨name, k :: segs, hgname, ?_, by simp, ?_⟩
      · intro s hs
        rcases List.mem_cons.1 hs with h2 | h2
        · exact h2 ▸ hk
        · exact hsegs s h2
      · rw [hpath]
        congr 1
        simp
    · obtain ⟨k, segs, hk, hsegs, hmem, hpath⟩ :=
        fileEntries_shape rest preSegs (goodFS_tail _ _ hg) hpre e h1
      exact ⟨k, segs, hk, hsegs, by simp [hmem], hpath⟩

theorem findEntry_fileEntries :
    ∀ (T : FileSystem) (preSegs segs : List String), GoodFS T →
      (∀ s ∈ preSegs, goodKey s) → (∀ s ∈ segs, goodKey s) → segs ≠ [] →
      findEntry (fileEntries T (joinSegs preSegs)) (joinSegs (preSegs ++ segs)) =
        lookupSegs T segs
  | [], _, segs, _, _, _, hne => by
    rw [lookupSegs_nil segs hne]
    simp [fileEntries, findEntry]
  | (name, FSNode.file c) :: rest, preSegs, segs, hg, hpre, hsegs, hne => by
    cases segs with
    | nil => exact absurd rfl hne
    | cons p s1 =>
      have hgname : goodKey name := goodKey_head rest name _ hg
      have hrest : GoodFS rest := goodFS_tail _ _ hg
      have hrec := findEntry_fileEntries rest preSegs (p :: s1) hrest hpre hsegs (by simp)
      simp only [fileEntries, joinName_joinSegs preSegs name hpre, findEntry]
      by_cases hmatch : joinSegs (preSegs ++ [name]) = joinSegs (preSegs ++ p :: s1)
      · have heq : [name] = p :: s1 :=
          joinSegs_append_inj preSegs [name] (p :: s1) hpre
            (by intro s hs; rw [List.mem_singleton.1 hs]; exact hgname) hsegs hmatch
        have hnp : name = p := by simpa using congrArg List.head? heq
        have hs1 : s1 = [] := by simpa using congrArg List.tail heq
        subst hs1
        rw [if_pos hmatch, hnp]
        simp [lookupSegs, objGet]
      · rw [if_neg hmatch, hrec]
        by_cases hnp : name = p
        · have hs1 : s1 ≠ [] := by
            intro h0
            rw [h0, hnp] at hmatch
            exact hmatch rfl
          have hnotin : p ∉ rest.map Prod.fst := hnp ▸ head_notin_tail rest name _ hg
          rw [lookupSegs_head_notin rest p s1 hnotin, hnp]
          cases s1 with
          | nil => exact absurd rfl hs1
          | cons q r => simp [lookupSegs, objGet]
        · rw [lookupSegs_cons_ne name _ rest p s1 hnp]
  | (name, FSNode.folder ch) :: rest, preSegs, segs, hg, hpre, hsegs, hne => by
    cases segs with
    | nil => exact absurd rfl hne
    | cons p s1 =>
      have hgname : goodKey name := goodKey_head rest name _ hg
      have hrest : GoodFS rest := goodFS_tail _ _ hg
      have hch : GoodFS ch := goodFS_head_folder rest name ch hg
      have hpre' : ∀ s ∈ preSegs ++ [name], goodKey s := by
        intro s hs
        rcases List.mem_append.1 hs with h1 | h1
        · exact hpre s h1
        · rw [List.mem_singleton.1 h1]; exact hgname
      have hrecR := findEntry_fileEntries rest preSegs (p :: s1) hrest hpre hsegs (by simp)
      simp only [fileEntries, joinName_joinSegs preSegs name hpre, findEntry_append]
      by_cases hnp : name = p
      · cases s1 with
        | nil =>
          -- target path is the folder itself: no file entry matches
          have hchnone :
              findEntry (fileEntries ch (joinSegs (preSegs ++ [name])))
                (joinSegs (preSegs ++ [p])) = none := by
            refine findEntry_eq_none _ _ ?_
            intro e he hpath
            obtain ⟨k, segs', hk, hsegs', _, hshape⟩ :=
              fileEntries_shape ch (preSegs ++ [name]) hch hpre' e he
            rw [hshape, List.append_assoc] at hpath
            have : name :: k :: segs' = [p] := by
              refine joinSegs_append_inj preSegs _ _ hpre ?_ ?_ (by simpa using hpath)
              · intro s hs
                rcases List.mem_cons.1 hs with h2 | h2
                · exact h2 ▸ hgname
                · rcases List.mem_cons.1 h2 with h3 | h3
                  · exact h3 ▸ hk
                  · exact hsegs' s h3
              · intro s hs
                rw [List.mem_singleton.1 hs]
                exact hsegs p (List.mem_cons_self _ _)
            simpa using congrArg List.length this
          have hrestnone : lookupSegs rest [p] = none := by
            have hnotin : p ∉ rest.map Prod.fst := hnp ▸ head_notin_tail rest name _ hg
            exact lookupSegs_head_notin rest p [] hnotin
          rw [hchnone, hrecR, hrestnone, hnp]
          simp [lookupSegs, objGet]
        | cons q r =>
          have hkeyrw : joinSegs (preSegs ++ p :: q :: r) =
              joinSegs ((preSegs ++ [name]) ++ q :: r) := by
            rw [List.append_assoc, hnp]
            rfl
          have hrecC := findEntry_fileEntries ch (preSegs ++ [name]) (q :: r) hch hpre'
            (fun s hs => hsegs s (List.mem_cons_of_mem _ hs)) (by simp)
          have hrestnone : lookupSegs rest (p :: q :: r) = none := by
            have hnotin : p ∉ rest.map Prod.fst := hnp ▸ head_notin_tail rest name _ hg
            exact lookupSegs_head_notin rest p (q :: r) hnotin
          rw [hkeyrw] at hrecR
          rw [hkeyrw, hrecC, hrecR, hrestnone, hnp]
          simp [lookupSegs, objGet]
      · -- heads differ: nothing in the child subtree matches
        have hchnone :
            findEntry (fileEntries ch (joinSegs (preSegs ++ [name])))
              (joinSegs (preSegs ++ p :: s1)) = none := by
          refine findEntry_eq_none _ _ ?_
          intro e he hpath
          obtain ⟨k, segs', hk, hsegs', _, hshape⟩ :=
            fileEntries_shape ch (preSegs ++ [name]) hch hpre' e he
          rw [hshape, List.append_assoc] at hpath
          have : name :: k :: segs' = p :: s1 := by
            refine joinSegs_append_inj preSegs _ _ hpre ?_ hsegs (by simpa using hpath)
            intro s hs
            rcases List.mem_cons.1 hs with h2 | h2
            · exact h2 ▸ hgname
            · rcases List.mem_cons.1 h2 with h3 | h3
              · exact h3 ▸ hk
              · exact hsegs' s h3
          exact hnp (by simpa using congrArg List.head? this)
        rw [hchnone, hrecR, lookupSegs_cons_ne name _ rest p s1 hnp]
        simp

theorem retrieve_eq_lookupSegs (T : FileSystem) (p : String) (hg : GoodFS T)
    (hne : pathParts p ≠ []) : retrieve T p = lookupSegs T (pathParts p) := by
  have h := findEntry_fileEntries T [] (pathParts p) hg (by simp) (pathParts_good p) hne
  simpa [retrieve, joinSegs] using h

/-! ## Behaviour of the streamed-action handler and the stream loop -/

theorem hsa_spec (sv : List String) (sh : Option String) (cu : String)
    (r : String → String → Option String) (s : Session) (it : StreamItem) :
    (handleStreamedAction sv sh cu r s it).1.visitedUrls = s.visitedUrls ∧
    (handleStreamedAction sv sh cu r s it).1.fixAttempts = s.fixAttempts ∧
    (handleStreamedAction sv sh cu r s it).1.fetchLog = s.fetchLog ∧
    (handleStreamedAction sv sh cu r s it).1.consoleErrors = s.consoleErrors ∧
    ((handleStreamedAction sv sh cu r s it).1.cloningQueue = s.cloningQueue ∨
      (∃ j, (handleStreamedAction sv sh cu r s it).1.cloningQueue = s.cloningQueue ++ [j] ∧
        s.cloningQueue.length + sv.length < 5)) ∧
    ((handleStreamedAction sv sh cu r s it).2 = false →
      (handleStreamedAction sv sh cu r s it).1.cloningState = s.cloningState) ∧
    ((handleStreamedAction sv sh cu r s it).2 = true →
      (handleStreamedAction sv sh cu r s it).1.cloningState = CloningState.AWAITING_USER_INPUT ∧
      (handleStreamedAction sv sh cu r s it).1.cloningQueue = s.cloningQueue) := by
  cases it with
  | thought content => simp [handleStreamedAction, addLog]
  | file path content =>
    by_cases h : path.endsWith ".html" ∧ sh = none
    · simp [handleStreamedAction, addLog, if_pos h]
    · simp [handleStreamedAction, addLog, if_neg h]
  | authWall message => simp [handleStreamedAction, addLog]
  | nextPage url =>
    rcases hres : r url cu with _ | nextUrl
    · simp [handleStreamedAction, addLog, hres]
    · by_cases h : listHas sv nextUrl = false ∧ queueHas s.cloningQueue nextUrl = false ∧
          s.cloningQueue.length + sv.length < 5
      · refine ⟨?_, ?_, ?_, ?_, Or.inr ⟨{ url := nextUrl }, ?_, h.2.2⟩, ?_, ?_⟩ <;>
          simp [handleStreamedAction, addLog, hres, if_pos h]
      · simp [handleStreamedAction, addLog, hres, if_neg h]
  | complete message => simp [handleStreamedAction, addLog]
  | other raw => simp [handleStreamedAction, addLog]
  | malformed line => simp [handleStreamedAction, addLog]

theorem head_append_singleton {α : Type} (l : List α) (j : α) (h : l ≠ []) :
    (l ++ [j]).head? = l.head? := by
  cases l with
  | nil => exact absurd rfl h
  | cons x xs => rfl

theorem runStream_spec (sv : List String) (sh : Option String) (cu : String)
    (r : String → String → Option String) :
    ∀ (items : List StreamItem) (s : Session),
      (runStream sv sh cu r s items).1.visitedUrls = s.visitedUrls ∧
      (runStream sv sh cu r s items).1.fixAttempts = s.fixAttempts ∧
      (runStream sv sh cu r s items).1.fetchLog = s.fetchLog ∧
      (runStream sv sh cu r s items).1.consoleErrors = s.consoleErrors ∧
      (runStream sv sh cu r s items).1.cloningQueue.length + sv.length ≤
        max (s.cloningQueue.length + sv.length) 5 ∧
      (s.cloningQueue ≠ [] → (runStream sv sh cu r s items).1.cloningQueue.head? =
        s.cloningQueue.head? ∧ (runStream sv sh cu r s items).1.cloningQueue ≠ []) ∧
      ((runStream sv sh cu r s items).2 = false →
        (runStream sv sh cu r s items).1.cloningState = s.cloningState) ∧
      ((runStream sv sh cu r s items).2 = true →
        (runStream sv sh cu r s items).1.cloningState = CloningState.AWAITING_USER_INPUT)
  | [], s => by
    exact ⟨rfl, rfl, rfl, rfl, le_max_left _ _, fun h => ⟨rfl, h⟩, fun _ => rfl,
      by simp [runStream]⟩
  | it :: rest, s => by
    obtain ⟨hv, hf, hl, hc, hq, hs0, hs1⟩ := hsa_spec sv sh cu r s it
    rcases hstep : handleStreamedAction sv sh cu r s it with ⟨s', stop⟩
    rw [hstep] at hv hf hl hc hq hs0 hs1
    cases stop with
    | true =>
      obtain ⟨hstate, hqe⟩ := hs1 rfl
      simp only [runStream, hstep]
      refine ⟨hv, hf, hl, hc, by rw [hqe]; omega, ?_, by simp, fun _ => hstate⟩
      intro h
      rw [hqe]
      exact ⟨rfl, h⟩
    | false =>
      have hrec := runStream_spec sv sh cu r rest s'
      obtain ⟨rv, rf, rl, rc, rq, rh, rs0, rs1⟩ := hrec
      simp only [runStream, hstep]
      refine ⟨by rw [rv, hv], by rw [rf, hf], by rw [rl, hl], by rw [rc, hc], ?_, ?_, ?_, rs1⟩
      · rcases hq with hq | ⟨j, hj, hlt⟩
        · rw [hq] at rq; exact rq
        · rw [hj] at rq
          simp only [List.length_append, List.length_singleton] at rq
          omega
      · intro hne
        have hne' : s'.cloningQueue ≠ [] := by
          rcases hq with hq | ⟨j, hj, _⟩
          · rw [hq]; exact hne
          · rw [hj]; simp
        have hh := rh hne'
        refine ⟨?_, hh.2⟩
        rw [hh.1]
        rcases hq with hq | ⟨j, hj, _⟩
        · rw [hq]
        · rw [hj, head_append_singleton _ _ hne]
      · intro h
        rw [rs0 h, hs0 rfl]

/-! ## Preservation of the session invariant by each operation -/

theorem applyUpdates_fields (logPrefix : String) :
    ∀ (files : List (String × String)) (s : Session),
      (applyUpdates logPrefix s files).visitedUrls = s.visitedUrls ∧
      (applyUpdates logPrefix s files).cloningQueue = s.cloningQueue ∧
      (applyUpdates logPrefix s files).fixAttempts = s.fixAttempts ∧
      (applyUpdates logPrefix s files).fetchLog = s.fetchLog ∧
      (applyUpdates logPrefix s files).consoleErrors = s.consoleErrors ∧
      (applyUpdates logPrefix s files).cloningState = s.cloningState
  | [], s => ⟨rfl, rfl, rfl, rfl, rfl, rfl⟩
  | (path, content) :: rest, s => by
    obtain ⟨h1, h2, h3, h4, h5, h6⟩ := applyUpdates_fields logPrefix rest
      (if path.endsWith ".html" then
        { addLog s (logPrefix ++ path) LogType.DEBUG with
            fileSystem := addFileToSystem s.fileSystem path content,
            mainHtmlContent := some (consoleCaptureScript ++ content) }
       else
        { addLog s (logPrefix ++ path) LogType.DEBUG with
            fileSystem := addFileToSystem s.fileSystem path content })
    by_cases hp : path.endsWith ".html" <;>
      simp only [applyUpdates, addLog, if_pos, if_neg, hp, ite_true, ite_false] at * <;>
      exact ⟨h1, h2, h3, h4, h5, h6⟩

theorem streamPhase_inv (b : Bool) (sv : List String) (sh : Option String) (cu : String)
    (resolve : String → String → Option String) (items : List StreamItem)
    (trailing : Option StreamItem) (s6 : Session)
    (hv : s6.visitedUrls.Nodup) (hfix : s6.fixAttempts ≤ MAX_FIX_ATTEMPTS)
    (hfl : s6.fetchLog.Nodup) (hsub : ∀ u ∈ s6.fetchLog, u ∈ s6.visitedUrls)
    (hb : b = false → s6.visitedUrls.length ≤ 5 ∧
      s6.cloningQueue.length + sv.length ≤ 5 ∧
      s6.visitedUrls.length ≤ sv.length + 1 ∧ sv.length ≤ 4) :
    SessionInv b (streamPhase sv sh cu resolve items trailing s6) := by
  obtain ⟨rv, rf, rl, rc, rq, _, rs0, rs1⟩ := runStream_spec sv sh cu resolve items s6
  unfold streamPhase
  rcases hrun : runStream sv sh cu resolve s6 items with ⟨s7, stopped⟩
  rw [hrun] at rv rf rl rc rq rs0 rs1
  dsimp only at rv rf rl rc rq rs0 rs1
  cases stopped with
  | true =>
    dsimp only
    refine ⟨by rw [rv]; exact hv, by rw [rf]; exact hfix, by rw [rl]; exact hfl, ?_, ?_⟩
    · intro u hu
      rw [rl] at hu
      rw [rv]
      exact hsub u hu
    · intro hb'
      obtain ⟨h1, h2, _, _⟩ := hb hb'
      refine ⟨by rw [rv]; exact h1, by omega, ?_⟩
      intro hcl
      rw [rs1 rfl] at hcl
      cases hcl
  | false =>
    have hq7 : b = false → s7.cloningQueue.length + sv.length ≤ 5 := by
      intro hb'
      obtain ⟨_, h2, _, _⟩ := hb hb'
      exact le_trans rq (max_le h2 (le_refl 5))
    rcases trailing with _ | item
    · dsimp only
      refine ⟨by simpa [rv] using hv, by simpa [rf] using hfix, by simpa [rl] using hfl, ?_, ?_⟩
      · intro u hu
        rw [rl] at hu
        simpa [rv] using hsub u hu
      · intro hb'
        obtain ⟨h1, _, h3, h4⟩ := hb hb'
        have h5 := hq7 hb'
        refine ⟨by simpa [rv] using h1, ?_, ?_⟩
        · simp only [List.length_tail]
          omega
        · intro _
          simp only [List.length_tail]
          rw [rv]
          omega
    · dsimp only
      obtain ⟨tv, tf, tl, _, tq, _, _⟩ := hsa_spec sv sh cu resolve s7 item
      have hq8 : (handleStreamedAction sv sh cu resolve s7 item).1.cloningQueue.length =
          s7.cloningQueue.length ∨
          ((handleStreamedAction sv sh cu resolve s7 item).1.cloningQueue.length =
            s7.cloningQueue.length + 1 ∧ s7.cloningQueue.length + sv.length < 5) := by
        rcases tq with tq | ⟨j, tq, tlt⟩
        · exact Or.inl (by rw [tq])
        · exact Or.inr ⟨by rw [tq]; simp, tlt⟩
      refine ⟨by simp only [tv, rv]; exact hv, by simp only [tf, rf]; exact hfix,
        by simp only [tl, rl]; exact hfl, ?_, ?_⟩
      · intro u hu
        rw [tl, rl] at hu
        rw [tv, rv]
        exact hsub u hu
      · intro hb'
        obtain ⟨h1, _, h3, h4⟩ := hb hb'
        have h5 := hq7 hb'
        refine ⟨by simp only [tv, rv]; exact h1, ?_, ?_⟩
        · simp only [List.length_tail]
          omega
        · intro _
          simp only [List.length_tail, tv, rv]
          omega

theorem processQueue_inv (b : Bool) (s : Session) (resolve : String → String → Option String)
    (fetch : FetchOutcome) (items : List StreamItem) (trailing : Option StreamItem)
    (h : SessionInv b s) : SessionInv b (processQueue s resolve fetch items trailing) := by
  obtain ⟨hnodup, hfix, hflog, hsub, hbound⟩ := h
  unfold processQueue
  split
  · exact ⟨hnodup, hfix, hflog, hsub, hbound⟩
  · next hcond =>
    push_neg at hcond
    obtain ⟨hstate, hqne⟩ := hcond
    rcases hq : s.cloningQueue with _ | ⟨job, rest⟩
    · exact absurd hq hqne
    · dsimp only
      by_cases hvis : listHas s.visitedUrls job.url
      · rw [if_pos hvis]
        refine ⟨hnodup, hfix, hflog, hsub, ?_⟩
        intro hb
        have hq5 := (hbound hb).2.1
        have hsum := (hbound hb).2.2 hstate
        rw [hq] at hq5 hsum
        simp only [List.length_cons] at hq5 hsum
        exact ⟨(hbound hb).1, by dsimp only; omega, fun _ => by dsimp only; omega⟩
      · rw [if_neg hvis]
        have hnotmem : job.url ∉ s.visitedUrls := (listHas_false_iff _ _).1 (by simpa using hvis)
        have hvd : (setAdd s.visitedUrls job.url).Nodup := setAdd_nodup _ _ hnodup
        have hfn : job.url ∉ s.fetchLog := fun hf => hnotmem (hsub _ hf)
        have hflog' : (s.fetchLog ++ [job.url]).Nodup := by
          refine List.Nodup.append hflog (List.nodup_singleton _) ?_
          intro a ha hak
          rw [List.mem_singleton] at hak
          exact hfn (hak ▸ ha)
        have hsub' : ∀ u ∈ s.fetchLog ++ [job.url], u ∈ setAdd s.visitedUrls job.url := by
          intro u hu
          rw [mem_setAdd]
          rcases List.mem_append.1 hu with h1 | h1
          · exact Or.inl (hsub u h1)
          · exact Or.inr (List.mem_singleton.1 h1)
        have hvlen : (setAdd s.visitedUrls job.url).length = s.visitedUrls.length + 1 := by
          rw [setAdd_of_not_mem _ _ hnotmem]; simp
        have hsum1 : b = false → s.visitedUrls.length + (rest.length + 1) ≤ 5 := by
          intro hb
          have hs := (hbound hb).2.2 hstate
          rw [hq] at hs
          simpa using hs
        have hmv : (markAndLog s job).visitedUrls = setAdd s.visitedUrls job.url := by
          simp [markAndLog, addLog]
        have hmq : (markAndLog s job).cloningQueue = s.cloningQueue := by
          simp [markAndLog, addLog]
        have hmf : (markAndLog s job).fixAttempts = s.fixAttempts := by
          simp [markAndLog, addLog]
        have hml : (markAndLog s job).fetchLog = s.fetchLog ++ [job.url] := by
          simp [markAndLog, addLog]
        rcases fetch with html | status | msg
        · refine streamPhase_inv b _ _ _ _ _ _ _ ?_ ?_ ?_ ?_ ?_
          · simpa [dispatchSession, addLog, hmv] using hvd
          · simpa [dispatchSession, addLog, hmf] using hfix
          · simpa [dispatchSession, addLog, hml] using hflog'
          · intro u hu
            simp only [dispatchSession, addLog, hml] at hu
            simp only [dispatchSession, addLog, hmv]
            exact hsub' u hu
          · intro hb
            have h1 := hsum1 hb
            simp only [dispatchSession, addLog, hmv, hmq, hvlen, hq, List.length_cons]
            omega
        · refine ⟨?_, ?_, ?_, ?_, ?_⟩
          · simpa [addLog, hmv] using hvd
          · simpa [addLog, hmf] using hfix
          · simpa [addLog, hml] using hflog'
          · intro u hu
            simp only [addLog, hml] at hu
            simp only [addLog, hmv]
            exact hsub' u hu
          · intro hb
            have h1 := hsum1 hb
            refine ⟨?_, ?_, ?_⟩
            · simp only [addLog, hmv, hvlen]; omega
            · simp only [addLog, hmq, hq, List.length_cons]; omega
            · intro hcl
              exact absurd hcl (by simp [addLog])
        · refine ⟨?_, ?_, ?_, ?_, ?_⟩
          · simpa [addLog, hmv] using hvd
          · simpa [addLog, hmf] using hfix
          · simpa [addLog, hml] using hflog'
          · intro u hu
            simp only [addLog, hml] at hu
            simp only [addLog, hmv]
            exact hsub' u hu
          · intro hb
            have h1 := hsum1 hb
            refine ⟨?_, ?_, ?_⟩
            · simp only [addLog, hmv, hvlen]; omega
            · simp only [addLog, hmq, hq, List.length_cons]; omega
            · intro hcl
              exact absurd hcl (by simp [addLog])

theorem initiate_inv (b : Bool) (s : Session) (rawUrl : String) (useScreenshot openOk : Bool)
    (h : SessionInv b s) : SessionInv b (handleInitiateCloning s rawUrl useScreenshot openOk) := by
  obtain ⟨hnodup, hfix, hflog, hsub, hbound⟩ := h
  unfold handleInitiateCloning
  split
  · exact ⟨hnodup, hfix, hflog, hsub, hbound⟩
  · dsimp only [addLog]
    split
    · split
      · refine ⟨by simp, by simp [hfix], by simp, by simp, ?_⟩
        intro hb
        exact ⟨by simp, (hbound hb).2.1, fun _ => by
          have h5 := (hbound hb).2.1
          simp
          omega⟩
      · refine ⟨by simp, by simp [hfix], by simp, by simp, ?_⟩
        intro hb
        exact ⟨by simp, (hbound hb).2.1, fun hcl => absurd hcl (by simp)⟩
    · refine ⟨by simp, by simp [hfix], by simp, by simp, ?_⟩
      intro _
      exact ⟨by simp, by simp, fun _ => by simp⟩

theorem screenshot_inv (b : Bool) (s : Session) (h : SessionInv b s)
    (hg : ¬ (s.cloningState = CloningState.CLONING ∧ s.cloningQueue = [] ∧
      s.visitedUrls ≠ [])) : SessionInv b (handleScreenshotReady s) := by
  obtain ⟨hnodup, hfix, hflog, hsub, hbound⟩ := h
  refine ⟨hnodup, hfix, hflog, hsub, ?_⟩
  intro hb
  refine ⟨(hbound hb).1, by simp [handleScreenshotReady], ?_⟩
  intro hcl
  simp only [handleScreenshotReady] at hcl ⊢
  simp only [List.length_cons, List.length_nil]
  rcases (by tauto : ¬ s.cloningQueue = [] ∨ ¬ s.visitedUrls ≠ []) with hc | hc
  · have hsum := (hbound hb).2.2 hcl
    rcases hqe : s.cloningQueue with _ | ⟨j, rest⟩
    · exact absurd hqe hc
    · rw [hqe] at hsum
      simp only [List.length_cons] at hsum
      omega
  · push_neg at hc
    rw [hc]
    simp

theorem resume_inv (s : Session) (nextUrl : String) (h : SessionInv true s) :
    SessionInv true (handleResumeCloning s nextUrl) := by
  obtain ⟨hnodup, hfix, hflog, hsub, _⟩ := h
  unfold handleResumeCloning
  split
  · exact ⟨hnodup, hfix, hflog, hsub, fun hb => by cases hb⟩
  · exact ⟨hnodup, hfix, hflog, hsub, fun hb => by cases hb⟩

theorem cancel_inv (b : Bool) (s : Session) (h : SessionInv b s) :
    SessionInv b (cancelAuthPrompt s) := by
  obtain ⟨hnodup, hfix, hflog, hsub, hbound⟩ := h
  refine ⟨hnodup, hfix, hflog, hsub, ?_⟩
  intro hb
  refine ⟨(hbound hb).1, (hbound hb).2.1, ?_⟩
  intro hcl
  exact absurd hcl (by simp [cancelAuthPrompt, addLog])

theorem drain_inv (b : Bool) (s : Session) (h : SessionInv b s) :
    SessionInv b (drainCheck s) := by
  obtain ⟨hnodup, hfix, hflog, hsub, hbound⟩ := h
  unfold drainCheck
  split
  · refine ⟨hnodup, hfix, hflog, hsub, ?_⟩
    intro hb
    refine ⟨(hbound hb).1, (hbound hb).2.1, ?_⟩
    intro hcl
    exact absurd hcl (by simp [addLog])
  · exact ⟨hnodup, hfix, hflog, hsub, hbound⟩

theorem handleQualityCheck_fields (s : Session) (q : QualityOutcome) :
    (handleQualityCheck s q).visitedUrls = s.visitedUrls ∧
    (handleQualityCheck s q).cloningQueue = s.cloningQueue ∧
    (handleQualityCheck s q).fixAttempts = s.fixAttempts ∧
    (handleQualityCheck s q).fetchLog = s.fetchLog ∧
    ((handleQualityCheck s q).cloningState = CloningState.COMPLETED ∨
      (handleQualityCheck s q).cloningState = CloningState.ERROR) := by
  unfold handleQualityCheck
  rcases q with msg | ⟨analysis, files⟩
  · simp [addLog]
  · by_cases hf : files = []
    · simp [addLog, hf]
    · obtain ⟨h1, h2, h3, h4, _, _⟩ := applyUpdates_fields
        "AI is applying quality improvement to: " files
        (addLog (addLog s "AI is reviewing code for quality improvements..." LogType.DEBUG)
          ("AI Quality Review: " ++ analysis) LogType.SYSTEM)
      simp [addLog] at h1 h2 h3 h4
      simp [addLog, hf, h1, h2, h3, h4]

theorem quality_inv (b : Bool) (s : Session) (q : QualityOutcome) (h : SessionInv b s) :
    SessionInv b (qualityEffect s q) := by
  obtain ⟨hnodup, hfix, hflog, hsub, hbound⟩ := h
  unfold qualityEffect
  split
  · obtain ⟨h1, h2, h3, h4, h5⟩ := handleQualityCheck_fields s q
    refine ⟨by rw [h1]; exact hnodup, by rw [h3]; exact hfix, by rw [h4]; exact hflog, ?_, ?_⟩
    · intro u hu
      rw [h4] at hu
      rw [h1]
      exact hsub u hu
    · intro hb
      refine ⟨by rw [h1]; exact (hbound hb).1, by rw [h2]; exact (hbound hb).2.1, ?_⟩
      intro hcl
      rcases h5 with h5 | h5 <;> rw [h5] at hcl <;> cases hcl
  · exact ⟨hnodup, hfix, hflog, hsub, hbound⟩

theorem handleAutoFix_fields (s : Session) (errors : List String) (fix : FixOutcome) :
    (handleAutoFix s errors fix).visitedUrls = s.visitedUrls ∧
    (handleAutoFix s errors fix).cloningQueue = s.cloningQueue ∧
    (handleAutoFix s errors fix).fixAttempts = s.fixAttempts + 1 ∧
    (handleAutoFix s errors fix).fetchLog = s.fetchLog ∧
    (handleAutoFix s errors fix).cloningState ≠ CloningState.CLONING := by
  unfold handleAutoFix
  rcases fix with msg | ⟨analysis, files⟩
  · simp [addLog]
  · by_cases hf : files = []
    · simp [addLog, hf]
    · obtain ⟨h1, h2, h3, h4, _, _⟩ := applyUpdates_fields "AI is applying fix to: " files
        (addLog (addLog { s with
            cloningState := CloningState.FIXING, fixAttempts := s.fixAttempts + 1,
            consoleErrors := [] }
          ("Analyzing " ++ toString errors.length ++ " console error(s)...") LogType.DEBUG)
          ("AI Analysis: " ++ analysis) LogType.SYSTEM)
      simp [addLog] at h1 h2 h3 h4
      simp [addLog, hf, h1, h2, h3, h4]

theorem handleAutoFix_inv (b : Bool) (s0 : Session) (errors : List String) (fix : FixOutcome)
    (hv : s0.visitedUrls.Nodup) (hfx : s0.fixAttempts < MAX_FIX_ATTEMPTS)
    (hfl : s0.fetchLog.Nodup) (hsb : ∀ u ∈ s0.fetchLog, u ∈ s0.visitedUrls)
    (hbd : b = false → s0.visitedUrls.length ≤ 5 ∧ s0.cloningQueue.length ≤ 5) :
    SessionInv b (handleAutoFix s0 errors fix) := by
  obtain ⟨h1, h2, h3, h4, h5⟩ := handleAutoFix_fields s0 errors fix
  refine ⟨by rw [h1]; exact hv, by rw [h3]; omega, by rw [h4]; exact hfl, ?_, ?_⟩
  · intro u hu
    rw [h4] at hu
    rw [h1]
    exact hsb u hu
  · intro hb
    exact ⟨by rw [h1]; exact (hbd hb).1, by rw [h2]; exact (hbd hb).2,
      fun hcl => absurd hcl h5⟩

theorem fixTrigger_inv (b : Bool) (s : Session) (fix : FixOutcome) (h : SessionInv b s) :
    SessionInv b (consoleErrorsEffect s fix) := by
  obtain ⟨hnodup, hfix, hflog, hsub, hbound⟩ := h
  unfold consoleErrorsEffect
  split
  · next hcond =>
    refine handleAutoFix_inv b _ _ _ ?_ ?_ ?_ ?_ ?_
    · simpa [addLog] using hnodup
    · simpa [addLog] using hcond.2.2
    · simpa [addLog] using hflog
    · intro u hu
      simp only [addLog] at hu ⊢
      exact hsub u hu
    · intro hb
      exact ⟨by simpa [addLog] using (hbound hb).1, by simpa [addLog] using (hbound hb).2.1⟩
  · split
    · refine ⟨hnodup, hfix, hflog, hsub, ?_⟩
      intro hb
      refine ⟨(hbound hb).1, (hbound hb).2.1, ?_⟩
      intro hcl
      exact absurd hcl (by simp [addLog])
    · exact ⟨hnodup, hfix, hflog, hsub, hbound⟩

theorem message_inv (b : Bool) (s : Session) (m : String) (h : SessionInv b s) :
    SessionInv b (consoleErrorMessage s m) := by
  obtain ⟨hnodup, hfix, hflog, hsub, hbound⟩ := h
  unfold consoleErrorMessage
  split
  · exact ⟨hnodup, hfix, hflog, hsub, hbound⟩
  · exact ⟨hnodup, hfix, hflog, hsub, hbound⟩

theorem initialSession_inv (b : Bool) : SessionInv b initialSession := by
  refine ⟨by simp [initialSession], by simp [initialSession, MAX_FIX_ATTEMPTS],
    by simp [initialSession], by simp [initialSession], ?_⟩
  intro _
  refine ⟨by simp [initialSession], by simp [initialSession], ?_⟩
  intro hcl
  exact absurd hcl (by simp [initialSession])

theorem reach_inv (b : Bool) (s : Session) (h : Reach b s) : SessionInv b s := by
  induction h with
  | init b => exact initialSession_inv b
  | seed b s rawUrl useScreenshot openOk _ ih =>
    exact initiate_inv b s rawUrl useScreenshot openOk ih
  | screenshotReady b s _ hg ih => exact screenshot_inv b s ih hg
  | processStep b s resolve fetch items trailing _ ih =>
    exact processQueue_inv b s resolve fetch items trailing ih
  | drain b s _ ih => exact drain_inv b s ih
  | quality b s q _ ih => exact quality_inv b s q ih
  | message b s m _ ih => exact message_inv b s m ih
  | fixTrigger b s fix _ ih => exact fixTrigger_inv b s fix ih
  | resume s nextUrl _ _ ih => exact resume_inv s nextUrl ih
  | cancelAuth b s _ _ ih => exact cancel_inv b s ih

/-! ## Structure of stream runs: append decomposition and auth walls -/

theorem runStream_append (sv : List String) (sh : Option String) (cu : String)
    (r : String → String → Option String) :
    ∀ (xs ys : List StreamItem) (s : Session),
      runStream sv sh cu r s (xs ++ ys) =
        match runStream sv sh cu r s xs with
        | (s', true) => (s', true)
        | (s', false) => runStream sv sh cu r s' ys
  | [], ys, s => by simp [runStream]
  | it :: rest, ys, s => by
    rcases hstep : handleStreamedAction sv sh cu r s it with ⟨s', stop⟩
    cases stop with
    | true => simp [runStream, hstep]
    | false =>
      simp only [List.cons_append, runStream, hstep]
      exact runStream_append sv sh cu r rest ys s'

theorem hsa_stop_eq_false (sv : List String) (sh : Option String) (cu : String)
    (r : String → String → Option String) (s : Session) (it : StreamItem)
    (h : ∀ m, it ≠ StreamItem.authWall m) :
    (handleStreamedAction sv sh cu r s it).2 = false := by
  cases it with
  | thought content => simp [handleStreamedAction]
  | file path content =>
    simp only [handleStreamedAction]
    split <;> simp
  | authWall m => exact absurd rfl (h m)
  | nextPage url =>
    simp only [handleStreamedAction]
    rcases r url cu with _ | m
    · simp
    · dsimp only
      split <;> simp
  | complete m => simp [handleStreamedAction]
  | other raw => simp [handleStreamedAction]
  | malformed line => simp [handleStreamedAction]

theorem runStream_no_authWall (sv : List String) (sh : Option String) (cu : String)
    (r : String → String → Option String) :
    ∀ (items : List StreamItem) (s : Session), (∀ m, StreamItem.authWall m ∉ items) →
      (runStream sv sh cu r s items).2 = false
  | [], _, _ => rfl
  | it :: rest, s, h => by
    have hit : ∀ m, it ≠ StreamItem.authWall m := by
      intro m hm
      exact h m (by rw [← hm]; exact List.mem_cons_self _ _)
    have hstop := hsa_stop_eq_false sv sh cu r s it hit
    rcases hstep : handleStreamedAction sv sh cu r s it with ⟨s', stop⟩
    rw [hstep] at hstop
    simp only at hstop
    subst hstop
    simp only [runStream, hstep]
    exact runStream_no_authWall sv sh cu r rest s' fun m hm => h m (List.mem_cons_of_mem _ hm)

theorem hsa_authWall (sv : List String) (sh : Option String) (cu : String)
    (r : String → String → Option String) (s : Session) (m : String) :
    handleStreamedAction sv sh cu r s (StreamItem.authWall m) =
      ({ addLog s ("AI Agent: \"" ++ m ++ "\"") LogType.WARN with
          authUrl := cu, cloningState := CloningState.AWAITING_USER_INPUT }, true) := rfl

theorem runStream_authWall_after (sv : List String) (sh : Option String) (cu : String)
    (r : String → String → Option String) (pre : List StreamItem) (m : String)
    (post : List StreamItem) (s : Session) (hpre : ∀ msg, StreamItem.authWall msg ∉ pre) :
    runStream sv sh cu r s (pre ++ StreamItem.authWall m :: post) =
      ((handleStreamedAction sv sh cu r (runStream sv sh cu r s pre).1
        (StreamItem.authWall m)).1, true) := by
  rw [runStream_append]
  have hnostop := runStream_no_authWall sv sh cu r pre s hpre
  rcases hr : runStream sv sh cu r s pre with ⟨s', st⟩
  rw [hr] at hnostop
  simp only at hnostop
  subst hnostop
  simp [runStream, hsa_authWall]

theorem processQueue_fresh_ok (s : Session) (resolve : String → String → Option String)
    (html : String) (job : Job) (rest : List Job)
    (hstate : s.cloningState = CloningState.CLONING) (hq : s.cloningQueue = job :: rest)
    (hvis : listHas s.visitedUrls job.url = false) :
    (∀ (items : List StreamItem) (trailing : Option StreamItem),
      processQueue s resolve (FetchOutcome.ok html) items trailing =
        streamPhase s.visitedUrls s.mainHtmlContent job.url resolve items trailing
          (dispatchSession (markAndLog s job))) ∧
    (dispatchSession (markAndLog s job)).cloningQueue = job :: rest ∧
    (dispatchSession (markAndLog s job)).visitedUrls = setAdd s.visitedUrls job.url ∧
    (dispatchSession (markAndLog s job)).fileSystem = s.fileSystem ∧
    (dispatchSession (markAndLog s job)).cloningState = CloningState.CLONING := by
  refine ⟨fun items trailing => ?_, ?_, ?_, ?_, ?_⟩
  · unfold processQueue
    rw [if_neg (by simp [hstate, hq])]
    simp only [hq]
    rw [if_neg (by simp [hvis])]
  · simp [dispatchSession, markAndLog, addLog, hq]
  · simp [dispatchSession, markAndLog, addLog]
  · simp [dispatchSession, markAndLog, addLog]
  · simp [dispatchSession, markAndLog, addLog, hstate]

theorem queueHas_iff (q : List Job) (u : String) :
    queueHas q u = true ↔ ∃ j ∈ q, j.url = u := by
  induction q with
  | nil => simp [queueHas]
  | cons j rest ih =>
    by_cases h : j.url = u
    · simp only [queueHas, if_pos h, true_iff]
      exact ⟨j, List.mem_cons_self j rest, h⟩
    · simp only [queueHas, if_neg h, ih]
      constructor
      · rintro ⟨j', hj', hju⟩
        exact ⟨j', List.mem_cons_of_mem _ hj', hju⟩
      · rintro ⟨j', hj', hju⟩
        rcases List.mem_cons.1 hj' with h1 | h1
        · exact absurd (h1 ▸ hju) h
        · exact ⟨j', h1, hju⟩

/-! ## The claims -/

/-- **C1, counterexample.**  The claim says every state reachable by
orchestrator operations (seeding, processing, next-page enqueueing,
auth-wall resumption) has a visited set of at most 5 URLs, a job that
would push the count past 5 being rejected.  This is false: the streaming
`processQueue` checks only membership, never the visited count
(`src/App.tsx` lines 343–349), and `handleResumeCloning` enqueues
unconditionally, so five auth-wall/resume cycles after the seed yield a
reachable state whose visited set holds 6 URLs. -/
theorem claim1_counterexample : Reach true c1Final ∧ c1Final.visitedUrls.length = 6 := by
  constructor
  · have h2 : Reach true c1Start :=
      Reach.processStep true _ demoResolve (FetchOutcome.ok "") demoAuthStream none
        (Reach.seed true initialSession "https://u1.com" false true (Reach.init true))
    have step : ∀ (s : Session) (u : String), Reach true s →
        s.cloningState = CloningState.AWAITING_USER_INPUT → Reach true (c1Step s u) := by
      intro s u hs hst
      exact Reach.processStep true _ demoResolve (FetchOutcome.ok "") demoAuthStream none
        (Reach.processStep true _ demoResolve (FetchOutcome.ok "") demoAuthStream none
          (Reach.resume s u hs hst))
    exact step _ "u6" (step _ "u5" (step _ "u4" (step _ "u3" (step _ "u2" h2 (by decide))
      (by decide)) (by decide)) (by decide)) (by decide)
  · decide

/-- **C1, amended.**  At every reachable state the visited set contains no
duplicate URLs; and for every state reachable *without* auth-wall
resumption the visited count never exceeds the page bound of 5.  (A job
whose URL is already visited is dropped, but the streaming orchestrator
performs no count-based rejection, so resuming after auth walls can push
the count past the bound — see the counterexample.) -/
theorem claim1_amended :
    (∀ (b : Bool) (s : Session), Reach b s → s.visitedUrls.Nodup) ∧
    (∀ s : Session, Reach false s → s.visitedUrls.length ≤ 5) := by
  constructor
  · intro b s h
    exact (reach_inv b s h).1
  · intro s h
    exact ((reach_inv false s h).2.2.2.2 rfl).1

/-- **C1, witness.** -/
theorem claim1_witness : initialSession.visitedUrls.Nodup ∧
    initialSession.visitedUrls.length ≤ 5 :=
  ⟨claim1_amended.1 true initialSession (Reach.init true),
   claim1_amended.2 initialSession (Reach.init false)⟩

/-- **C2.**  For every reachable session the fix-attempt counter never
exceeds the ceiling `MAX_FIX_ATTEMPTS = 3`; and whenever console errors
are present while attempts are exhausted and no fix is in progress, the
console-error effect drives the state to `ERROR` without invoking the
model: the outcome is independent of the model oracle and the counter is
unchanged. -/
theorem claim2 :
    (∀ (b : Bool) (s : Session), Reach b s → s.fixAttempts ≤ MAX_FIX_ATTEMPTS) ∧
    (∀ (s : Session) (fix : FixOutcome), s.consoleErrors ≠ [] →
      MAX_FIX_ATTEMPTS ≤ s.fixAttempts → s.cloningState ≠ CloningState.FIXING →
      (consoleErrorsEffect s fix).cloningState = CloningState.ERROR ∧
      (consoleErrorsEffect s fix).fixAttempts = s.fixAttempts ∧
      ∀ fix' : FixOutcome, consoleErrorsEffect s fix = consoleErrorsEffect s fix') := by
  constructor
  · intro b s h
    exact (reach_inv b s h).2.1
  · intro s fix herr hge hnf
    have hc1 : ¬ (s.consoleErrors ≠ [] ∧
        (s.cloningState = CloningState.COMPLETED ∨ s.cloningState = CloningState.ERROR) ∧
        s.fixAttempts < MAX_FIX_ATTEMPTS) := by
      rintro ⟨_, _, hlt⟩
      omega
    have hc2 : s.consoleErrors ≠ [] ∧ MAX_FIX_ATTEMPTS ≤ s.fixAttempts ∧
        s.cloningState ≠ CloningState.FIXING := ⟨herr, hge, hnf⟩
    refine ⟨?_, ?_, ?_⟩
    · unfold consoleErrorsEffect
      rw [if_neg hc1, if_pos hc2]
    · unfold consoleErrorsEffect
      rw [if_neg hc1, if_pos hc2]
      simp [addLog]
    · intro fix'
      unfold consoleErrorsEffect
      rw [if_neg hc1, if_pos hc2, if_neg hc1]

/-- **C2, witness.** -/
theorem claim2_witness :
    initialSession.fixAttempts ≤ MAX_FIX_ATTEMPTS ∧
    (consoleErrorsEffect c2Session (FixOutcome.exn "boom")).cloningState =
      CloningState.ERROR :=
  ⟨claim2.1 true initialSession (Reach.init true),
   (claim2.2 c2Session (FixOutcome.exn "boom") (by decide) (by decide) (by decide)).1⟩

/-- **C3, counterexample.**  The claim says that for every insertion
sequence and every path `p` with a non-empty segment, retrieval of `p`
via flattening yields the content of the last insertion at `p`.  False:
the only (hence last) insertion at `"a"` wrote `"x"`, but the subsequent
insertion at `"a/b"` overwrote the file node `a` with a folder, so
retrieval yields `none`. -/
theorem claim3_counterexample :
    retrieve (buildTree [] [("a", "x"), ("a/b", "y")]) "a" = none ∧
    retrieve (buildTree [] [("a", "x"), ("a/b", "y")]) "a" ≠ some "x" := by
  constructor <;>
    simp [retrieve, buildTree, addFileToSystem, pathParts, jsSplitChars, insertParts, objGet,
      objSet, fileEntries, findEntry, joinSegs, joinName]

/-- **C3, amended.**  Last-write-wins holds for non-interfered paths:
if the insertion sequence decomposes as `pre ++ (q, c) :: post` with `q`
normalising to the same segments as `p`, and no insertion of `post` has a
segment path that is a prefix of `p`'s segments or extends them (those
are exactly the insertions that replace the file at `p` by a folder or
overwrite one of its ancestors — intermediate folders being created on
demand, overwriting non-folder collisions), then retrieving `p` from the
resulting tree via flattening yields exactly `c`. -/
theorem claim3_amended (pre post : List (String × String)) (q p c : String)
    (hqp : pathParts q = pathParts p) (hne : pathParts p ≠ [])
    (hpost : ∀ e ∈ post, ¬ pathParts e.1 <+: pathParts p ∧ ¬ pathParts p <+: pathParts e.1) :
    retrieve (buildTree [] (pre ++ (q, c) :: post)) p = some c := by
  have hgood : GoodFS (buildTree [] (pre ++ (q, c) :: post)) :=
    goodFS_buildTree _ _ goodFS_nil
  rw [retrieve_eq_lookupSegs _ _ hgood hne, buildTree_append]
  rw [show buildTree (buildTree [] pre) ((q, c) :: post) =
    buildTree (addFileToSystem (buildTree [] pre) q c) post from rfl]
  rw [lookupSegs_buildTree_other post _ (pathParts p) hne hpost]
  unfold addFileToSystem
  rw [hqp]
  exact lookupSegs_insertParts_self (pathParts p) _ c hne

/-- **C3, witness.** -/
theorem claim3_witness :
    retrieve (buildTree [] ([("a/b.txt", "old"), ("a/c.txt", "z")] ++
      ("a/b.txt", "new") :: [("d.txt", "w")])) "a/b.txt" = some "new" :=
  claim3_amended [("a/b.txt", "old"), ("a/c.txt", "z")] [("d.txt", "w")] "a/b.txt" "a/b.txt"
    "new" (by decide) (by decide) (by decide)

/-- **C4.**  In batch mode, when the model reports an auth wall for the
job being processed, the session moves to `AWAITING_USER_INPUT`, `authUrl`
records the job's URL and the file tree is unchanged — no file of the
response is merged. -/
theorem claim4 (s : Session) (resolve : String → String → Option String)
    (res : Batch.BatchResult) (job : Job) (rest : List Job)
    (hstate : s.cloningState = CloningState.CLONING) (hq : s.cloningQueue = job :: rest)
    (hvis : listHas s.visitedUrls job.url = false)
    (hlen : s.visitedUrls.length < Batch.MAX_PAGES) (hauth : res.isAuthWall = true) :
    (Batch.processQueue s resolve (Batch.BatchOutcome.ok res)).cloningState =
      CloningState.AWAITING_USER_INPUT ∧
    (Batch.processQueue s resolve (Batch.BatchOutcome.ok res)).authUrl = job.url ∧
    (Batch.processQueue s resolve (Batch.BatchOutcome.ok res)).fileSystem = s.fileSystem := by
  have h5 : ¬ Batch.MAX_PAGES ≤ s.visitedUrls.length := Nat.not_le.2 hlen
  unfold Batch.processQueue
  rw [if_pos ⟨hstate, by rw [hq]; simp⟩]
  simp only [hq]
  rw [if_neg (by simp [hvis]), if_neg h5]
  rw [if_pos hauth]
  refine ⟨rfl, rfl, ?_⟩
  simp [addLog, apply_ite]

/-- **C4, witness.** -/
theorem claim4_witness :
    (Batch.processQueue c4Session demoResolve (Batch.BatchOutcome.ok c4Result)).cloningState =
      CloningState.AWAITING_USER_INPUT ∧
    (Batch.processQueue c4Session demoResolve (Batch.BatchOutcome.ok c4Result)).authUrl =
      "https://login.example" ∧
    (Batch.processQueue c4Session demoResolve (Batch.BatchOutcome.ok c4Result)).fileSystem =
      c4Session.fileSystem :=
  claim4 c4Session demoResolve c4Result { url := "https://login.example" } [] rfl rfl
    (by decide) (by decide) rfl

/-- **C5, counterexample.**  The claim says that once an authWall record
of a page's stream is handled, the processed job is not dropped from the
queue.  False when the authWall record arrives in the trailing
unterminated buffer: `processQueue` discards the stop flag returned for
the trailing record (`src/App.tsx` line 442), so the auth state is
entered *and* the head job is dropped. -/
theorem claim5_counterexample :
    (processQueue c5Session demoResolve (FetchOutcome.ok "")
        [] (some (StreamItem.authWall "login"))).cloningState =
      CloningState.AWAITING_USER_INPUT ∧
    (processQueue c5Session demoResolve (FetchOutcome.ok "")
        [] (some (StreamItem.authWall "login"))).cloningQueue = [] ∧
    c5Session.cloningQueue = [{ url := "https://page.example" }] :=
  ⟨by decide, by decide, by decide⟩

/-- **C5, amended.**  For an authWall record that arrives as one of the
newline-delimited records: once it is handled, no subsequent record of
the stream — later line records or a trailing buffered record — is
applied (the run equals the run truncated after the authWall), the
processed job stays at the head of the queue, and the state is
`AWAITING_USER_INPUT`.  Only an authWall parsed from the trailing
unterminated buffer escapes this and lets the job be dropped. -/
theorem claim5_amended (s : Session) (resolve : String → String → Option String) (html : String)
    (job : Job) (rest : List Job) (pre post : List StreamItem) (m : String)
    (trailing : Option StreamItem)
    (hstate : s.cloningState = CloningState.CLONING) (hq : s.cloningQueue = job :: rest)
    (hvis : listHas s.visitedUrls job.url = false)
    (hpre : ∀ msg, StreamItem.authWall msg ∉ pre) :
    processQueue s resolve (FetchOutcome.ok html)
        (pre ++ StreamItem.authWall m :: post) trailing =
      processQueue s resolve (FetchOutcome.ok html) (pre ++ [StreamItem.authWall m]) none ∧
    (processQueue s resolve (FetchOutcome.ok html)
        (pre ++ StreamItem.authWall m :: post) trailing).cloningQueue.head? = some job ∧
    (processQueue s resolve (FetchOutcome.ok html)
        (pre ++ StreamItem.authWall m :: post) trailing).cloningState =
      CloningState.AWAITING_USER_INPUT := by
  obtain ⟨hpq, hq6, _, _, _⟩ := processQueue_fresh_ok s resolve html job rest hstate hq hvis
  have haw1 := runStream_authWall_after s.visitedUrls s.mainHtmlContent job.url resolve pre m
    post (dispatchSession (markAndLog s job)) hpre
  have haw2 := runStream_authWall_after s.visitedUrls s.mainHtmlContent job.url resolve pre m
    [] (dispatchSession (markAndLog s job)) hpre
  have hsp1 : streamPhase s.visitedUrls s.mainHtmlContent job.url resolve
      (pre ++ StreamItem.authWall m :: post) trailing (dispatchSession (markAndLog s job)) =
      (handleStreamedAction s.visitedUrls s.mainHtmlContent job.url resolve
        (runStream s.visitedUrls s.mainHtmlContent job.url resolve
          (dispatchSession (markAndLog s job)) pre).1 (StreamItem.authWall m)).1 := by
    unfold streamPhase
    rw [haw1]
  have hsp2 : streamPhase s.visitedUrls s.mainHtmlContent job.url resolve
      (pre ++ [StreamItem.authWall m]) none (dispatchSession (markAndLog s job)) =
      (handleStreamedAction s.visitedUrls s.mainHtmlContent job.url resolve
        (runStream s.visitedUrls s.mainHtmlContent job.url resolve
          (dispatchSession (markAndLog s job)) pre).1 (StreamItem.authWall m)).1 := by
    unfold streamPhase
    rw [haw2]
  refine ⟨?_, ?_, ?_⟩
  · rw [hpq, hpq, hsp1, hsp2]
  · rw [hpq, hsp1]
    obtain ⟨_, _, _, _, _, rh, _, _⟩ := runStream_spec s.visitedUrls s.mainHtmlContent job.url
      resolve pre (dispatchSession (markAndLog s job))
    have hne : (dispatchSession (markAndLog s job)).cloningQueue ≠ [] := by
      rw [hq6]; simp
    rw [hsa_authWall]
    dsimp only [addLog]
    rw [(rh hne).1, hq6]
    rfl
  · rw [hpq, hsp1, hsa_authWall]

/-- **C5, witness.** -/
theorem claim5_witness :
    processQueue c5Session demoResolve (FetchOutcome.ok "")
        ([StreamItem.thought "plan"] ++ StreamItem.authWall "login" ::
          [StreamItem.file "a.html" "x"]) (some (StreamItem.complete "done")) =
      processQueue c5Session demoResolve (FetchOutcome.ok "")
        ([StreamItem.thought "plan"] ++ [StreamItem.authWall "login"]) none :=
  (claim5_amended c5Session demoResolve "" { url := "https://page.example" } []
    [StreamItem.thought "plan"] [StreamItem.file "a.html" "x"] "login"
    (some (StreamItem.complete "done")) rfl rfl (by decide)
    (by intro msg hmem; simp at hmem)).1

/-- **C6, counterexample.**  The claim says a model-provided next-page
URL is enqueued only if the queue length plus the visited-set size is
strictly below 5.  At the moment the record is handled the current job's
URL has already been marked visited (4 visited URLs) and the job still
sits in the queue (length 1), so the claimed condition `4 + 1 < 5` fails
— yet the URL *is* enqueued, because the handler reads the stale
pre-marking snapshot of the visited set (3 entries) captured by the
effect's closure (`src/App.tsx` line 483). -/
theorem claim6_counterexample :
    (processQueue c6Session demoResolveId (FetchOutcome.ok "")
        [StreamItem.nextPage "https://d.example"] none).cloningQueue =
      [{ url := "https://d.example" }] ∧
    (setAdd c6Session.visitedUrls "https://p.example").length +
      c6Session.cloningQueue.length = 5 :=
  ⟨by decide, by decide⟩

/-- **C6, amended.**  A nextPage URL emitted by the model is resolved
against the current page URL; on resolution failure the queue just loses
the processed head.  On success it is enqueued if and only if the
resolved URL is not in the pre-marking snapshot of the visited set (the
set as it was when the job's processing began, before the current URL was
marked), not already in the queue (which still contains the current job),
and the queue length plus the snapshot's size is strictly below 5;
otherwise only the processed head is dropped. -/
theorem claim6_amended (s : Session) (resolve : String → String → Option String) (html : String)
    (job : Job) (rest : List Job) (n : String)
    (hstate : s.cloningState = CloningState.CLONING) (hq : s.cloningQueue = job :: rest)
    (hvis : listHas s.visitedUrls job.url = false) :
    (resolve n job.url = none →
      (processQueue s resolve (FetchOutcome.ok html)
        [StreamItem.nextPage n] none).cloningQueue = rest) ∧
    (∀ m, resolve n job.url = some m →
      (processQueue s resolve (FetchOutcome.ok html)
          [StreamItem.nextPage n] none).cloningQueue =
        if listHas s.visitedUrls m = false ∧ queueHas (job :: rest) m = false ∧
            (job :: rest).length + s.visitedUrls.length < 5
        then rest ++ [{ url := m }] else rest) := by
  obtain ⟨hpq, hq6, _, _, _⟩ := processQueue_fresh_ok s resolve html job rest hstate hq hvis
  constructor
  · intro hres
    rw [hpq]
    unfold streamPhase
    simp only [runStream, handleStreamedAction, hres]
    dsimp only [addLog]
    rw [hq6]
    rfl
  · intro m hres
    rw [hpq]
    unfold streamPhase
    simp only [runStream, handleStreamedAction, hres]
    rw [hq6]
    by_cases hg : listHas s.visitedUrls m = false ∧ queueHas (job :: rest) m = false ∧
        (job :: rest).length + s.visitedUrls.length < 5
    · rw [if_pos hg, if_pos hg]
      dsimp only [addLog]
      rw [hq6]
      rfl
    · rw [if_neg hg, if_neg hg]
      dsimp only [addLog]
      rw [hq6]
      rfl

/-- **C6, witness.** -/
theorem claim6_witness :
    (processQueue c6Session demoResolveId (FetchOutcome.ok "")
        [StreamItem.nextPage "https://d.example"] none).cloningQueue =
      (if listHas c6Session.visitedUrls "https://d.example" = false ∧
          queueHas [{ url := "https://p.example" }] "https://d.example" = false ∧
          ([{ url := "https://p.example" }] : List Job).length +
            c6Session.visitedUrls.length < 5
       then ([] : List Job) ++ [{ url := "https://d.example" }] else []) :=
  (claim6_amended c6Session demoResolveId "" { url := "https://p.example" } []
    "https://d.example" rfl rfl (by decide)).2 "https://d.example" rfl

/-- **C7.**  If the page fetch for a processed job returns a non-success
HTTP status, the job fails hard: the state becomes `ERROR` and an
ERROR-typed log entry is appended whose message mentions the status. -/
theorem claim7 (s : Session) (resolve : String → String → Option String) (status : Nat)
    (items : List StreamItem) (trailing : Option StreamItem) (job : Job) (rest : List Job)
    (hstate : s.cloningState = CloningState.CLONING) (hq : s.cloningQueue = job :: rest)
    (hvis : listHas s.visitedUrls job.url = false) :
    (processQueue s resolve (FetchOutcome.httpError status) items trailing).cloningState =
      CloningState.ERROR ∧
    ∃ entry ∈ (processQueue s resolve (FetchOutcome.httpError status) items trailing).agentLogs,
      entry.type = LogType.ERROR ∧ mentions entry.message (toString status) := by
  have hred : processQueue s resolve (FetchOutcome.httpError status) items trailing =
      { addLog (markAndLog s job) ("An error occurred: " ++ ("Failed to fetch URL " ++
          job.url ++ ". Status: " ++ toString status ++ ".")) LogType.ERROR with
        cloningState := CloningState.ERROR } := by
    unfold processQueue
    rw [if_neg (by simp [hstate, hq])]
    simp only [hq]
    rw [if_neg (by simp [hvis])]
  rw [hred]
  refine ⟨rfl, ⟨{ message := "An error occurred: " ++ ("Failed to fetch URL " ++ job.url ++
    ". Status: " ++ toString status ++ "."), type := LogType.ERROR }, ?_, rfl, ?_⟩⟩
  · simp [addLog, markAndLog]
  · exact ⟨"An error occurred: " ++ ("Failed to fetch URL " ++ (job.url ++ ". Status: ")), ".",
      by simp [String.append_assoc]⟩

/-- **C7, witness.** -/
theorem claim7_witness :
    (processQueue c7Session demoResolve (FetchOutcome.httpError 404) [] none).cloningState =
      CloningState.ERROR ∧
    ∃ entry ∈ (processQueue c7Session demoResolve
        (FetchOutcome.httpError 404) [] none).agentLogs,
      entry.type = LogType.ERROR ∧ mentions entry.message (toString 404) :=
  claim7 c7Session demoResolve 404 [] none { url := "https://missing.example" } [] rfl rfl
    (by decide)

/-- **C8.**  Processing a queue whose head job's URL is already visited
drops that head and changes nothing else — the outcome is one and the
same session for every fetch outcome and every stream, so no fetch and no
model call can have influenced it; and (via the ghost fetch log) within a
session no URL is ever fetched twice: the fetch log of every reachable
state is duplicate-free, fetched URLs being visited ones. -/
theorem claim8 :
    (∀ (s : Session) (resolve : String → String → Option String) (fetch : FetchOutcome)
      (items : List StreamItem) (trailing : Option StreamItem) (job : Job) (rest : List Job),
      s.cloningState = CloningState.CLONING → s.cloningQueue = job :: rest →
      listHas s.visitedUrls job.url = true →
      processQueue s resolve fetch items trailing = { s with cloningQueue := rest }) ∧
    (∀ (b : Bool) (s : Session), Reach b s →
      s.fetchLog.Nodup ∧ ∀ u ∈ s.fetchLog, u ∈ s.visitedUrls) := by
  constructor
  · intro s resolve fetch items trailing job rest hstate hq hvis
    unfold processQueue
    rw [if_neg (by simp [hstate, hq])]
    simp only [hq]
    rw [if_pos hvis]
  · intro b s h
    exact ⟨(reach_inv b s h).2.2.1, (reach_inv b s h).2.2.2.1⟩

/-- **C8, witness.** -/
theorem claim8_witness :
    processQueue c8Session demoResolve (FetchOutcome.ok "irrelevant")
        [StreamItem.file "a.html" "x"] none =
      { c8Session with cloningQueue := [{ url := "https://next.example" }] } ∧
    initialSession.fetchLog.Nodup :=
  ⟨claim8.1 c8Session demoResolve (FetchOutcome.ok "irrelevant")
      [StreamItem.file "a.html" "x"] none { url := "https://seen.example" }
      [{ url := "https://next.example" }] rfl rfl (by decide),
   (claim8.2 false initialSession (Reach.init false)).1⟩

/-- **C9.**  Starting from the empty tree, inserting `a/b/c.txt` and
flattening yields exactly one file entry whose path is `a/b/c.txt` and
whose content is the inserted content, both as raw `(path, content)`
pairs and through `getFileSystemAsText`'s formatting. -/
theorem claim9 (content : String) :
    fileEntries (addFileToSystem [] "a/b/c.txt" content) "" = [("a/b/c.txt", content)] ∧
    getFileSystemAsText (addFileToSystem [] "a/b/c.txt" content) =
      [fileEntryText "a/b/c.txt" content] := by
  constructor
  · simp [addFileToSystem, pathParts, jsSplitChars, insertParts, objGet, objSet, fileEntries,
      joinName]
  · simp [getFileSystemAsText, addFileToSystem, pathParts, jsSplitChars, insertParts, objGet,
      objSet, fileEntries, joinName]

/-- **C10.**  For any tree and any content, merging a file at a path with
no non-empty segment (the empty string, or only `/` characters) does not
reject the path or leave the tree unchanged: the function is total and
stores a file node at the root under the literal key `"undefined"` —
`parts[parts.length - 1]` is `undefined` and object indexing coerces it
to that string. -/
theorem claim10 (fs : FileSystem) (content path : String) (h : pathParts path = []) :
    addFileToSystem fs path content = objSet fs "undefined" (FSNode.file content) ∧
    objGet (addFileToSystem fs path content) "undefined" = some (FSNode.file content) := by
  have h1 : addFileToSystem fs path content = objSet fs "undefined" (FSNode.file content) := by
    unfold addFileToSystem
    rw [h]
    simp [insertParts]
  exact ⟨h1, by rw [h1]; exact objGet_objSet_self fs "undefined" (FSNode.file content)⟩

/-- **C10, witness.** -/
theorem claim10_witness :
    pathParts "///" = [] ∧
    objGet (addFileToSystem [] "///" "data") "undefined" = some (FSNode.file "data") :=
  ⟨by decide, (claim10 [] "data" "///" (by decide)).2⟩

end Cloner
